import Mathlib

/-!
Verification of the Budgeting-App ledger, CSV importer and transaction
classifier (`src/budgeting_app`).  Python `Decimal` values are embedded as
exact rationals (`ℚ`); Python dicts keyed by id are embedded as ordered
association lists with replace-in-place assignment, matching insertion-order
dict semantics; `uuid4().hex` identifier generation is embedded as an
explicitly supplied identifier argument.
-/

namespace BudgetApp

/-- The whitespace characters stripped by Python `str.strip()` that occur in
this code base (ASCII whitespace plus the non-breaking space). -/
def isPyWs (c : Char) : Bool :=
  c == ' ' || c == '\t' || c == '\n' || c == '\r' || c == '\x0b' || c == '\x0c' || c == '\u00A0'

/-- Python `str.strip()` on a character list. -/
def pyStripList (l : List Char) : List Char :=
  ((l.dropWhile isPyWs).reverse.dropWhile isPyWs).reverse

/-- Python `str.strip()`. -/
def pyStrip (s : String) : String :=
  String.mk (pyStripList s.toList)

/-- Python `str.lower()` (ASCII case folding, all strings here are ASCII). -/
def pyLower (s : String) : String :=
  String.mk (s.toList.map Char.toLower)

/-- Python substring test `needle in haystack` on character lists. -/
def containsSubList (needle : List Char) : List Char → Bool
  | [] => needle.isEmpty
  | c :: rest => needle.isPrefixOf (c :: rest) || containsSubList needle rest

/-- Python substring test `needle in haystack`. -/
def containsSub (needle haystack : String) : Bool :=
  containsSubList needle.toList haystack.toList

/-- Python truthiness of an optional string (`None` and `""` are falsy). -/
def pyTruthy : Option String → Bool
  | none => false
  | some s => !(s == "")

/-- Python `a or b` on optional strings. -/
def pyOr (a b : Option String) : Option String :=
  if pyTruthy a then a else b

/-- The strings among `parts` that are truthy, in order: Python
`[part for part in parts if part]`. -/
def truthyStrings (parts : List (Option String)) : List String :=
  parts.filterMap (fun p =>
    match p with
    | some s => if s == "" then none else some s
    | none => none)

/-- `BudgetCategory` from `models.py` (monetary `Decimal`s as `ℚ`). -/
structure BudgetCategory where
  name : String
  planned_amount : ℚ
  actual_amount : ℚ
  category_id : String
deriving Repr, DecidableEq

/-- `Transaction` from `models.py`. -/
structure Transaction where
  description : String
  amount : ℚ
  occurred_on : String
  category_id : Option String
  transaction_id : String
  account_id : Option String
  account_name : Option String
  counterparty : Option String
  reference : Option String
deriving Repr, DecidableEq

/-- `BudgetLedger` from `models.py`: the `categories` dict is an ordered
association list keyed by `category_id`, `transactions` a list. -/
structure BudgetLedger where
  categories : List BudgetCategory
  transactions : List Transaction
deriving Repr, DecidableEq

/-- Replace a category's `actual_amount`. -/
def setActual (c : BudgetCategory) (a : ℚ) : BudgetCategory :=
  BudgetCategory.mk c.name c.planned_amount a c.category_id

/-- Replace a transaction's `category_id` (in-place field assignment). -/
def setTxnCategory (t : Transaction) (cid : Option String) : Transaction :=
  Transaction.mk t.description t.amount t.occurred_on cid t.transaction_id
    t.account_id t.account_name t.counterparty t.reference

/-- Python `category_id in self.categories` (dict key membership). -/
def containsKey (cats : List BudgetCategory) (cid : String) : Bool :=
  cats.any (fun c => c.category_id == cid)

/-- First category stored under key `cid` (dict access; dicts built by the
embedded operations have unique keys). -/
def lookupCat : List BudgetCategory → String → Option BudgetCategory
  | [], _ => none
  | c :: rest, cid => if c.category_id == cid then some c else lookupCat rest cid

/-- Apply `f` to the entry stored under key `cid` (in-place mutation of the
dict value). -/
def modifyKey (f : BudgetCategory → BudgetCategory) (cid : String) :
    List BudgetCategory → List BudgetCategory
  | [] => []
  | c :: rest =>
    if c.category_id == cid then f c :: rest else c :: modifyKey f cid rest

/-- Python dict assignment `self.categories[cat.category_id] = cat`:
replace the entry holding that key in place, else append. -/
def dictInsert (cats : List BudgetCategory) (cat : BudgetCategory) :
    List BudgetCategory :=
  if containsKey cats cat.category_id then
    modifyKey (fun _ => cat) cat.category_id cats
  else cats ++ [cat]

/-- `BudgetCategory.apply_transaction` on the dict entry for `cid`:
`actual_amount += amount`. -/
def applyToCategory (cats : List BudgetCategory) (cid : String) (amount : ℚ) :
    List BudgetCategory :=
  modifyKey (fun c => setActual c (c.actual_amount + amount)) cid cats

/-- Resolution `given or uuid4().hex` of an identifier argument, with the
generated hex string supplied as `genId`. -/
def resolveId (given : Option String) (genId : String) : String :=
  match given with
  | some s => if s == "" then genId else s
  | none => genId

/-- `BudgetLedger.add_category`. -/
def addCategory (L : BudgetLedger) (nm : String) (planned : ℚ)
    (given : Option String) (genId : String) : BudgetLedger :=
  BudgetLedger.mk
    (dictInsert L.categories (BudgetCategory.mk nm planned 0 (resolveId given genId)))
    L.transactions

/-- `BudgetLedger.remove_category`: `dict.pop(category_id, None)` removes the
entry holding the key; the list rebuild keeps transactions whose
`category_id != category_id`. -/
def removeCategory (L : BudgetLedger) (cid : String) : BudgetLedger :=
  BudgetLedger.mk
    (L.categories.eraseP (fun c => c.category_id == cid))
    (L.transactions.filter (fun t => !(t.category_id == some cid)))

/-- `BudgetLedger.update_category`: raises on an unknown id, otherwise
applies only the supplied fields. -/
def updateCategory (L : BudgetLedger) (cid : String)
    (nm : Option String) (planned : Option ℚ) : Except String BudgetLedger :=
  if containsKey L.categories cid then
    Except.ok (BudgetLedger.mk
      (modifyKey (fun c =>
        BudgetCategory.mk (nm.getD c.name) (planned.getD c.planned_amount)
          c.actual_amount c.category_id) cid L.categories)
      L.transactions)
  else Except.error "Unknown category id"

/-- The transaction object built by `record_transaction`; `genId` stands for
the `uuid4().hex` fallback transaction id, and the `date.today()` default is
already resolved by the caller into `occurred_on`. -/
def mkRecordedTxn (description : String) (amount : ℚ)
    (category_id : Option String) (occurred_on : String)
    (transaction_id : Option String)
    (account_id account_name counterparty reference : Option String)
    (genId : String) : Transaction :=
  Transaction.mk description amount occurred_on category_id
    (resolveId transaction_id genId) account_id account_name counterparty reference

/-- `BudgetLedger.record_transaction`: append the transaction, then apply its
amount to the category when one is (truthily) given.  The guard mirrors
`if category_id and category_id not in self.categories: raise`; the second,
unreachable membership re-check inside the success path is omitted. -/
def recordTransaction (L : BudgetLedger) (description : String) (amount : ℚ)
    (category_id : Option String) (occurred_on : String)
    (transaction_id : Option String)
    (account_id account_name counterparty reference : Option String)
    (genId : String) : Except String BudgetLedger :=
  if pyTruthy category_id && !(containsKey L.categories (category_id.getD "")) then
    Except.error "Unknown category id"
  else if pyTruthy category_id then
    Except.ok (BudgetLedger.mk
      (applyToCategory L.categories (category_id.getD "") amount)
      (L.transactions ++ [mkRecordedTxn description amount category_id occurred_on
        transaction_id account_id account_name counterparty reference genId]))
  else
    Except.ok (BudgetLedger.mk L.categories
      (L.transactions ++ [mkRecordedTxn description amount category_id occurred_on
        transaction_id account_id account_name counterparty reference genId]))

/-- One iteration of the `recalculate_actuals` loop over the transactions:
`if transaction.category_id and transaction.category_id in self.categories`. -/
def recalcStep (cats : List BudgetCategory) (t : Transaction) :
    List BudgetCategory :=
  match t.category_id with
  | some cid =>
    if !(cid == "") && containsKey cats cid then applyToCategory cats cid t.amount
    else cats
  | none => cats

/-- `BudgetLedger.recalculate_actuals`: zero every actual, then re-apply every
transaction to its category. -/
def recalculateActuals (L : BudgetLedger) : BudgetLedger :=
  BudgetLedger.mk
    (L.transactions.foldl recalcStep (L.categories.map (fun c => setActual c 0)))
    L.transactions

/-- Exact-decimal sum of `amount` over the transactions whose `category_id`
equals `some cid`. -/
def catTotal (txns : List Transaction) (cid : String) : ℚ :=
  ((txns.filter (fun t => t.category_id == some cid)).map (fun t => t.amount)).sum

/-- The central consistency property: every category's `actual_amount` equals
the sum of the amounts of the transactions assigned to it. -/
def ActualsInvariant (L : BudgetLedger) : Prop :=
  ∀ c ∈ L.categories, c.actual_amount = catTotal L.transactions c.category_id

/-- The category dict has no duplicate keys (guaranteed by dict semantics). -/
def KeysNodup (L : BudgetLedger) : Prop :=
  (L.categories.map (fun c => c.category_id)).Nodup

/-- No category is stored under the falsy key `""`. -/
def CatIdsNonempty (L : BudgetLedger) : Prop :=
  ∀ c ∈ L.categories, c.category_id ≠ ""

/-- Every truthy `category_id` carried by a transaction refers to an existing
category (the spec's referential invariant on transactions). -/
def NoDangling (L : BudgetLedger) : Prop :=
  ∀ t ∈ L.transactions, ∀ cid, t.category_id = some cid → cid ≠ "" →
    containsKey L.categories cid = true

/-- Well-formedness of a ledger state. -/
def WF (L : BudgetLedger) : Prop :=
  KeysNodup L ∧ CatIdsNonempty L ∧ NoDangling L ∧ ActualsInvariant L

/-- `BudgetViewModel.delete_transaction`: filter the list by id, then
recompute all actuals. -/
def deleteTransaction (L : BudgetLedger) (tid : String) : BudgetLedger :=
  recalculateActuals
    (BudgetLedger.mk L.categories
      (L.transactions.filter (fun t => !(t.transaction_id == tid))))

/-- The in-place loop of `BudgetViewModel.set_transactions_category`: every
transaction whose id is in the set gets the target category. -/
def assignedTxns (txns : List Transaction) (ids : List String) (cid : String) :
    List Transaction :=
  txns.map (fun t =>
    if ids.contains t.transaction_id then setTxnCategory t (some cid) else t)

/-- `BudgetViewModel.set_transactions_category`.  The second component is the
raised error, if any; the first component is the ledger object as left by the
call (the source mutates matched transactions in place, so when no id matches
nothing has been mutated when it raises). -/
def setTransactionsCategory (L : BudgetLedger) (ids : List String)
    (cid : String) : BudgetLedger × Option String :=
  if !(containsKey L.categories cid) then (L, some "Unknown category id")
  else if ids.isEmpty then (L, none)
  else if !(L.transactions.any (fun t => ids.contains t.transaction_id)) then
    (BudgetLedger.mk L.categories (assignedTxns L.transactions ids cid),
      some "Unknown transaction id")
  else
    (recalculateActuals
      (BudgetLedger.mk L.categories (assignedTxns L.transactions ids cid)), none)

/-- Serialised form of a category (`BudgetCategory.to_dict`): the exact
decimal strings are embedded by their exact rational values, since
`Decimal(str(d)) == d`. -/
structure CategoryPayload where
  name : String
  planned_amount : ℚ
  actual_amount : ℚ
  category_id : String
deriving Repr, DecidableEq

/-- Serialised form of a transaction (`Transaction.to_dict`). -/
structure TransactionPayload where
  description : String
  amount : ℚ
  occurred_on : String
  category_id : Option String
  transaction_id : String
  account_id : Option String
  account_name : Option String
  counterparty : Option String
  reference : Option String
deriving Repr, DecidableEq

/-- Serialised form of a ledger (`BudgetLedger.to_dict`).  Every key emitted
by `asdict` is present; the `payload.get(..., default)` fallbacks of the
loaders, which only fire on keys missing altogether, are therefore not
represented. -/
structure LedgerPayload where
  categories : List CategoryPayload
  transactions : List TransactionPayload
deriving Repr, DecidableEq

/-- `BudgetCategory.to_dict`. -/
def categoryToDict (c : BudgetCategory) : CategoryPayload :=
  CategoryPayload.mk c.name c.planned_amount c.actual_amount c.category_id

/-- `BudgetCategory.from_dict`. -/
def categoryFromDict (p : CategoryPayload) : BudgetCategory :=
  BudgetCategory.mk p.name p.planned_amount p.actual_amount p.category_id

/-- `Transaction.to_dict`. -/
def transactionToDict (t : Transaction) : TransactionPayload :=
  TransactionPayload.mk t.description t.amount t.occurred_on t.category_id
    t.transaction_id t.account_id t.account_name t.counterparty t.reference

/-- `Transaction.from_dict` (`__post_init__` conversions are identities on
already-normalised values). -/
def transactionFromDict (p : TransactionPayload) : Transaction :=
  Transaction.mk p.description p.amount p.occurred_on p.category_id
    p.transaction_id p.account_id p.account_name p.counterparty p.reference

/-- `BudgetLedger.to_dict`. -/
def ledgerToDict (L : BudgetLedger) : LedgerPayload :=
  LedgerPayload.mk (L.categories.map categoryToDict)
    (L.transactions.map transactionToDict)

/-- `BudgetLedger.from_dict`: insert each category into the dict, append each
transaction, then `recalculate_actuals`. -/
def ledgerFromDict (p : LedgerPayload) : BudgetLedger :=
  recalculateActuals
    (BudgetLedger.mk
      (p.categories.foldl (fun acc cp => dictInsert acc (categoryFromDict cp)) [])
      (p.transactions.map transactionFromDict))

/-- Replace every stored `actual_amount` string of a serialised ledger by some
other value (used to state that loading never trusts the stored actuals). -/
def mapStoredActuals (f : ℚ → ℚ) (p : LedgerPayload) : LedgerPayload :=
  LedgerPayload.mk
    (p.categories.map (fun cp =>
      CategoryPayload.mk cp.name cp.planned_amount (f cp.actual_amount) cp.category_id))
    p.transactions

/-- A row of the CSV export, keyed by the header names used by
`csv_importer.py`.  A missing cell and an empty cell are both `""` (every
access goes through `row.get(key, "")` or treats `None` and `""` alike);
`naamInitierendePartijAlt` is the mis-encoded fallback header
`"Naam initi?rende partij"`. -/
structure CsvRow where
  datum : String
  rentedatum : String
  ibanBban : String
  bedrag : String
  naamTegenpartij : String
  omschrijving1 : String
  omschrijving2 : String
  omschrijving3 : String
  transactiereferentie : String
  machtigingskenmerk : String
  batchId : String
  volgnr : String
  naamInitierendePartij : String
  naamInitierendePartijAlt : String
deriving Repr, DecidableEq

/-- Numeric value of a digit list. -/
def digitsToNat (l : List Char) : Nat :=
  l.foldl (fun n c => 10 * n + (c.toNat - '0'.toNat)) 0

/-- The grammar of `decimal.Decimal(s)` restricted to the plain signed digit
strings this importer produces: optional sign, then digits with at most one
point and at least one digit (exponent and special forms never arise here and
are rejected). -/
def parseDecimalLit (s : String) : Option ℚ :=
  let l := s.toList
  let sign : ℚ := if l.head? = some '-' then -1 else 1
  let body := if l.head? = some '-' || l.head? = some '+' then l.tail else l
  match body.splitOn '.' with
  | [ip] =>
    if ip.all Char.isDigit ∧ ip ≠ [] then some (sign * digitsToNat ip) else none
  | [ip, fp] =>
    if ip.all Char.isDigit ∧ fp.all Char.isDigit ∧ (ip ≠ [] ∨ fp ≠ []) then
      some (sign * ((digitsToNat ip : ℚ) + (digitsToNat fp : ℚ) / (10 : ℚ) ^ fp.length))
    else none
  | _ => none

/-- `_parse_decimal`: strip, drop non-breaking spaces, treat the empty string
as zero, drop the period thousands separators, turn the decimal comma into a
point, and parse. -/
def parseDecimalPy (value : String) : Option ℚ :=
  let cleaned := (pyStrip value).toList.filter (fun c => !(c == '\u00A0'))
  if cleaned.isEmpty then some 0
  else
    parseDecimalLit
      (String.mk ((cleaned.filter (fun c => !(c == '.'))).map
        (fun c => if c == ',' then '.' else c)))

/-- Number of days in a month of the proleptic Gregorian calendar. -/
def daysInMonth (y m : Nat) : Nat :=
  if m = 2 then
    if y % 4 = 0 ∧ (y % 100 ≠ 0 ∨ y % 400 = 0) then 29 else 28
  else if m = 4 ∨ m = 6 ∨ m = 9 ∨ m = 11 then 30
  else 31

/-- Left-pad a numeral with zeros to the given width. -/
def padNum (width n : Nat) : String :=
  let s := toString n
  String.mk (List.replicate (width - s.length) '0') ++ s

/-- `datetime.strptime(value, "%Y-%m-%d").date().isoformat()`: three
dash-separated digit groups.  CPython compiles `%Y` to the regular expression
`\d\d\d\d`, so the year group is exactly four digits; `%m` and `%d` admit one
or two digits.  The digit values must form a valid calendar date with year at
least 1 (the `datetime` constructor's range check), and the result is the
zero-padded ISO rendering. -/
def parseIsoDate (s : String) : Option String :=
  match s.toList.splitOn '-' with
  | [ys, ms, ds] =>
    if ys.all Char.isDigit ∧ ms.all Char.isDigit ∧ ds.all Char.isDigit ∧
        ys.length = 4 ∧ 1 ≤ ms.length ∧ ms.length ≤ 2 ∧
        1 ≤ ds.length ∧ ds.length ≤ 2 then
      let y := digitsToNat ys
      let m := digitsToNat ms
      let d := digitsToNat ds
      if 1 ≤ y ∧ 1 ≤ m ∧ m ≤ 12 ∧ 1 ≤ d ∧ d ≤ daysInMonth y m then
        some (padNum 4 y ++ "-" ++ padNum 2 m ++ "-" ++ padNum 2 d)
      else none
    else none
  | _ => none

/-- One column attempt of `_pick_date`: an empty cell is skipped, a non-empty
cell that fails to parse falls through to the next column. -/
def tryDateColumn (v : String) : Option String :=
  let value := pyStrip v
  if value == "" then none else parseIsoDate value

/-- `_pick_date` over `DATE_COLUMNS = ("Datum", "Rentedatum")`; `none` models
the raised `ValueError("Unable to determine transaction date")`. -/
def pickDate (r : CsvRow) : Option String :=
  match tryDateColumn r.datum with
  | some d => some d
  | none => tryDateColumn r.rentedatum

/-- `DESCRIPTION_COLUMNS` of this row, in order. -/
def descriptionColumns (r : CsvRow) : List String :=
  [r.naamTegenpartij, r.omschrijving1, r.omschrijving2, r.omschrijving3]

/-- `_build_description`: collect the stripped non-empty description columns,
each once, append the reference if new, join with `" | "`, default
`"Transaction"`.  The `seen` set always equals the set of collected parts, so
membership is checked against the parts list. -/
def buildDescription (r : CsvRow) : String :=
  let parts := (descriptionColumns r).foldl
    (fun acc v =>
      let value := pyStrip v
      if value ≠ "" ∧ value ∉ acc then acc ++ [value] else acc) []
  let reference := pyStrip r.transactiereferentie
  let parts2 := if reference ≠ "" ∧ reference ∉ parts then parts ++ [reference] else parts
  if parts2.isEmpty then "Transaction" else String.intercalate " | " parts2

/-- `_account_name`. -/
def accountName (r : CsvRow) : Option String :=
  let party := if r.naamInitierendePartij ≠ "" then r.naamInitierendePartij
    else r.naamInitierendePartijAlt
  if party ≠ "" then
    let cleaned := pyStrip party
    if cleaned ≠ "" ∧ cleaned ≠ pyStrip r.naamTegenpartij then some cleaned else none
  else none

/-- `_counterparty`. -/
def counterpartyOf (r : CsvRow) : Option String :=
  let value := pyStrip r.naamTegenpartij
  if value == "" then none else some value

/-- `_reference`: first truthy candidate column, stripped, `None` if blank. -/
def referenceOf (r : CsvRow) : Option String :=
  let preferred :=
    if r.transactiereferentie ≠ "" then r.transactiereferentie
    else if r.machtigingskenmerk ≠ "" then r.machtigingskenmerk
    else if r.batchId ≠ "" then r.batchId
    else r.volgnr
  let value := pyStrip preferred
  if value == "" then none else some value

/-- A normalised transaction record parsed from the CSV file
(`CSVTransaction` in `csv_importer.py`). -/
structure CSVTransaction where
  description : String
  amount : ℚ
  occurred_on : String
  account_id : String
  account_name : Option String
  counterparty : Option String
  reference : Option String
deriving Repr, DecidableEq

/-- `read_transactions_from_csv` materialised over the decoded rows, as the
caller's `list(read_transactions_from_csv(path))` forces it: rows without an
account identifier are skipped; an unparseable amount or an unresolvable date
aborts with the raised error. -/
def readTransactionsFromRows : List CsvRow → Except String (List CSVTransaction)
  | [] => Except.ok []
  | r :: rest =>
    let account_id := pyStrip r.ibanBban
    if account_id == "" then readTransactionsFromRows rest
    else
      match parseDecimalPy r.bedrag with
      | none => Except.error "InvalidOperation"
      | some amount =>
        match pickDate r with
        | none => Except.error "Unable to determine transaction date"
        | some occurred =>
          match readTransactionsFromRows rest with
          | Except.ok txns =>
            Except.ok (CSVTransaction.mk (buildDescription r) amount occurred
              account_id (accountName r) (counterpartyOf r) (referenceOf r) :: txns)
          | Except.error e => Except.error e

/-- The reader applied to the decode attempt of `_get_reader`: `none` models a
file no candidate encoding can decode, whose `UnicodeDecodeError` is raised
before any row is read. -/
def readTransactionsFromCsv (input : Option (List CsvRow)) :
    Except String (List CSVTransaction) :=
  match input with
  | none => Except.error "Unable to decode CSV file"
  | some rows => readTransactionsFromRows rows

/-- The references present in the ledger:
`{txn.reference for txn in transactions if txn.reference is not None}`. -/
def txnRefs (L : BudgetLedger) : List String :=
  L.transactions.filterMap (fun t => t.reference)

/-- The skip test of the import loop:
`skip_existing and record.reference and record.reference in existing_refs`. -/
def importSkip (skipExisting : Bool) (refs : List String)
    (rec : CSVTransaction) : Bool :=
  skipExisting && (match rec.reference with
    | some r => !(r == "") && refs.contains r
    | none => false)

/-- `category_by_account.get(record.account_id, default_category_id)`. -/
def importCid (catMap : List (String × String)) (defCat : Option String)
    (rec : CSVTransaction) : Option String :=
  match catMap.lookup rec.account_id with
  | some v => some v
  | none => defCat

/-- `if record.reference: existing_refs.add(record.reference)`. -/
def addRef (refs : List String) (rec : CSVTransaction) : List String :=
  match rec.reference with
  | some r => if !(r == "") then r :: refs else refs
  | none => refs

/-- The loop body of `BudgetViewModel.import_transactions_from_csv` over the
already-parsed records; `genIds idx` supplies the `uuid4().hex` fallback for
a record without a reference.  On a raised `record_transaction` error the
ledger keeps the records committed before the failure, as in the source. -/
def importLoop (catMap : List (String × String)) (defCat : Option String)
    (skipExisting : Bool) (genIds : Nat → String) :
    BudgetLedger → List String → Nat → List CSVTransaction →
    BudgetLedger × Except String Nat
  | L, _, _, [] => (L, Except.ok 0)
  | L, refs, idx, rec :: rest =>
    if importSkip skipExisting refs rec then
      importLoop catMap defCat skipExisting genIds L refs (idx + 1) rest
    else
      match recordTransaction L rec.description rec.amount
          (importCid catMap defCat rec) rec.occurred_on
          rec.reference (some rec.account_id) rec.account_name rec.counterparty
          rec.reference (genIds idx) with
      | Except.error e => (L, Except.error e)
      | Except.ok L1 =>
        match importLoop catMap defCat skipExisting genIds L1 (addRef refs rec)
            (idx + 1) rest with
        | (L2, Except.ok n) => (L2, Except.ok (n + 1))
        | (L2, Except.error e) => (L2, Except.error e)

/-- `BudgetViewModel.import_transactions_from_csv`: materialise the parsed
records (propagating reader errors before any mutation), return zero for an
empty parse, otherwise seed the existing-reference set and run the loop. -/
def importTransactionsFromCsv (L : BudgetLedger) (input : Option (List CsvRow))
    (catMap : List (String × String)) (defCat : Option String)
    (skipExisting : Bool) (genIds : Nat → String) :
    BudgetLedger × Except String Nat :=
  match readTransactionsFromCsv input with
  | Except.error e => (L, Except.error e)
  | Except.ok recs =>
    if recs.isEmpty then (L, Except.ok 0)
    else
      importLoop catMap defCat skipExisting genIds L
        (if skipExisting then txnRefs L else []) 0 recs

/-- `ClassificationResult` from `ai.py`; the float confidence constants are
embedded by their decimal values, no arithmetic is performed on them. -/
structure ClassificationResult where
  category_name : String
  confidence : ℚ
deriving Repr, DecidableEq

/-- The classifier memory: Python dict from normalised key to result, as an
ordered association list with replace-in-place assignment. -/
abbrev Memory := List (String × ClassificationResult)

/-- Dict assignment `self._memory[key] = result`. -/
def memInsert (mem : Memory) (key : String) (v : ClassificationResult) : Memory :=
  if mem.any (fun e => e.1 == key) then
    mem.map (fun e => if e.1 == key then (key, v) else e)
  else mem ++ [(key, v)]

/-- Dict lookup `self._memory[key]` / `key in self._memory`. -/
def memLookup : Memory → String → Option ClassificationResult
  | [], _ => none
  | e :: rest, key => if e.1 == key then some e.2 else memLookup rest key

/-- Collapse every run of whitespace into a single space
(`re.sub(r"\s+", " ", ...)`), tracking whether the previous character was
part of a whitespace run. -/
def collapseWsAux : Bool → List Char → List Char
  | _, [] => []
  | prevWs, c :: rest =>
    if isPyWs c then
      if prevWs then collapseWsAux true rest
      else ' ' :: collapseWsAux true rest
    else c :: collapseWsAux false rest

/-- Collapse every run of whitespace into a single space. -/
def collapseWs (l : List Char) : List Char :=
  collapseWsAux false l

/-- `TransactionClassifier._normalise_transaction`: join the truthy parts of
description, counterparty, account name-or-id and reference, strip, lower,
collapse whitespace. -/
def normaliseTransaction (t : Transaction) : String :=
  let parts := [some t.description, t.counterparty,
    pyOr t.account_name t.account_id, t.reference]
  let text := String.intercalate " " (truthyStrings parts)
  String.mk (collapseWs (pyLower (pyStrip text)).toList)

/-- A character admitted by the token splitter `[^a-z0-9]+` (after
lower-casing). -/
def isTokenChar (c : Char) : Bool :=
  ('a' ≤ c && c ≤ 'z') || ('0' ≤ c && c ≤ '9')

/-- Split a character list into its maximal runs of token characters
(`re.split` on the complement produces the same runs once the empty strings
the source filters out with `if token` are dropped); `cur` is the reversed
run being collected. -/
def splitTokensAux : List Char → List Char → List (List Char)
  | cur, [] => if cur.isEmpty then [] else [cur.reverse]
  | cur, c :: rest =>
    if isTokenChar c then splitTokensAux (c :: cur) rest
    else if cur.isEmpty then splitTokensAux [] rest
    else cur.reverse :: splitTokensAux [] rest

/-- Split a character list into its maximal runs of token characters. -/
def splitTokens (l : List Char) : List (List Char) :=
  splitTokensAux [] l

/-- `TransactionClassifier._tokenise_transaction`: the set of lower-cased
alphanumeric tokens of description, counterparty, account name and reference
(a list with set-membership use). -/
def tokeniseTransaction (t : Transaction) : List String :=
  let parts := [some t.description, t.counterparty, t.account_name, t.reference]
  let text := pyLower (String.intercalate " " (truthyStrings parts))
  (splitTokens text.toList).map String.mk

/-- `TransactionClassifier._resolve_category_name`: exact case-insensitive
match first, else substring match in either direction, else the suggestion. -/
def resolveCategoryName (suggestion : String) (existing : List String) : String :=
  let sl := pyLower suggestion
  match existing.find? (fun n => pyLower n == sl) with
  | some n => n
  | none =>
    match existing.find? (fun n =>
        containsSub sl (pyLower n) || containsSub (pyLower n) sl) with
    | some n => n
    | none => suggestion

/-- The static keyword map of `_match_from_keywords`, in source order. -/
def keywordMap : List (String × String) :=
  [("grocery", "Groceries"), ("supermarket", "Groceries"), ("aldi", "Groceries"),
   ("lidl", "Groceries"), ("tesco", "Groceries"), ("rent", "Rent"),
   ("mortgage", "Housing"), ("uber", "Transport"), ("lyft", "Transport"),
   ("taxi", "Transport"), ("fuel", "Auto & Transport"), ("petrol", "Auto & Transport"),
   ("shell", "Auto & Transport"), ("bp", "Auto & Transport"), ("starbucks", "Dining"),
   ("coffee", "Dining"), ("restaurant", "Dining"), ("dining", "Dining"),
   ("salary", "Income"), ("payroll", "Income"), ("bonus", "Income"),
   ("electric", "Utilities"), ("internet", "Utilities"), ("broadband", "Utilities"),
   ("water", "Utilities"), ("insurance", "Insurance"), ("pharmacy", "Healthcare"),
   ("chemist", "Healthcare"), ("gym", "Health & Fitness"), ("fitness", "Health & Fitness")]

/-- `TransactionClassifier._match_from_keywords`. -/
def matchFromKeywords (t : Transaction) (existing : List String) :
    Option ClassificationResult :=
  let resolved := keywordMap.map (fun kv => (kv.1, resolveCategoryName kv.2 existing))
  let text := pyLower (String.intercalate " "
    (truthyStrings [some t.description, t.counterparty, t.reference]))
  if text == "" then none
  else
    match resolved.find? (fun kv => containsSub kv.1 text) with
    | some kv => some (ClassificationResult.mk kv.2 (6/10))
    | none => none

/-- Python `examples[-cap:]`: the most recent `cap` entries (the whole list
when `cap = 0`, since `l[-0:] = l`). -/
def pyTakeLast (cap : Nat) (l : List (Transaction × String)) :
    List (Transaction × String) :=
  if cap = 0 then l else l.drop (l.length - cap)

/-- The scan of `_match_from_examples` over the reversed recent examples. -/
def scanExamples (t : Transaction) (ttoks : List String) :
    List (Transaction × String) → Option ClassificationResult
  | [] => none
  | e :: rest =>
    let etoks := tokeniseTransaction e.1
    if etoks.isEmpty then scanExamples t ttoks rest
    else if ttoks.any (fun tok => etoks.contains tok) then
      some (ClassificationResult.mk e.2
        (if t.description == e.1.description then 85/100 else 7/10))
    else scanExamples t ttoks rest

/-- `TransactionClassifier._match_from_examples`. -/
def matchFromExamples (cap : Nat) (t : Transaction)
    (examples : List (Transaction × String)) : Option ClassificationResult :=
  if examples.isEmpty then none
  else
    let ttoks := tokeniseTransaction t
    if ttoks.isEmpty then none
    else scanExamples t ttoks (pyTakeLast cap examples).reverse

/-- One insertion step of `_update_memory`. -/
def updateMemoryStep (mem : Memory) (e : Transaction × String) : Memory :=
  let key := normaliseTransaction e.1
  if !(key == "") && !(e.2 == "") then
    memInsert mem key (ClassificationResult.mk e.2 (99/100))
  else mem

/-- `TransactionClassifier._update_memory`: seed the memory from the most
recent `cap` labelled examples. -/
def updateMemory (cap : Nat) (mem : Memory)
    (examples : List (Transaction × String)) : Memory :=
  (pyTakeLast cap examples).foldl updateMemoryStep mem

/-- The classifier state relevant to the embedded paths: the example cap and
the memoisation dict (`model`, `temperature` and the absent remote client are
inert here). -/
structure ClassifierState where
  max_feedback_examples : Nat
  memory : Memory
deriving DecidableEq

/-- `TransactionClassifier._heuristic_classification` (it also memoises any
produced result under the transaction's non-empty normalised key). -/
def heuristicClassification (cap : Nat) (mem : Memory) (t : Transaction)
    (existing : List String) (examples : List (Transaction × String))
    (key : String) : Option ClassificationResult × Memory :=
  match matchFromExamples cap t examples with
  | some r => (some r, if key == "" then mem else memInsert mem key r)
  | none =>
    match matchFromKeywords t existing with
    | some r => (some r, if key == "" then mem else memInsert mem key r)
    | none => (none, mem)

/-- `TransactionClassifier.suggest_category` for a classifier constructed
without an `OPENAI_API_KEY` (no remote client, the deterministic path): the
empty-input early return, the memory seeding, the memoised lookup, then the
heuristic fallback. -/
def suggestCategory (st : ClassifierState) (t : Transaction)
    (existing : List String) (examples : List (Transaction × String)) :
    Option ClassificationResult × ClassifierState :=
  if existing.isEmpty && examples.isEmpty then (none, st)
  else
    match (if normaliseTransaction t == "" then none
      else memLookup (updateMemory st.max_feedback_examples st.memory examples)
        (normaliseTransaction t)) with
    | some r => (some r, ClassifierState.mk st.max_feedback_examples
        (updateMemory st.max_feedback_examples st.memory examples))
    | none =>
      ((heuristicClassification st.max_feedback_examples
          (updateMemory st.max_feedback_examples st.memory examples) t existing
          examples (normaliseTransaction t)).1,
        ClassifierState.mk st.max_feedback_examples
          (heuristicClassification st.max_feedback_examples
            (updateMemory st.max_feedback_examples st.memory examples) t existing
            examples (normaliseTransaction t)).2)

/-- The states reachable from the empty ledger through the embedded operation
surface (`add_category`, `update_category`, `remove_category`,
`record_transaction`, transaction deletion, batch category assignment,
`recalculate_actuals`).  The identifier a successful `add_category` stores is
a freshly generated non-empty `uuid4().hex` (or a caller-supplied fresh id),
expressed by the two side conditions; failing calls raise before mutating, so
they do not produce new states. -/
inductive Reachable : BudgetLedger → Prop
  | empty : Reachable (BudgetLedger.mk [] [])
  | addCat (L : BudgetLedger) (nm : String) (planned : ℚ) (given : Option String)
      (genId : String) : Reachable L → resolveId given genId ≠ "" →
      containsKey L.categories (resolveId given genId) = false →
      Reachable (addCategory L nm planned given genId)
  | updateCat (L L' : BudgetLedger) (cid : String) (nm : Option String)
      (planned : Option ℚ) : Reachable L →
      updateCategory L cid nm planned = Except.ok L' → Reachable L'
  | removeCat (L : BudgetLedger) (cid : String) : Reachable L →
      Reachable (removeCategory L cid)
  | record (L L' : BudgetLedger) (description : String) (amount : ℚ)
      (category_id : Option String) (occurred_on : String)
      (transaction_id : Option String)
      (account_id account_name counterparty reference : Option String)
      (genId : String) : Reachable L →
      recordTransaction L description amount category_id occurred_on
        transaction_id account_id account_name counterparty reference genId =
        Except.ok L' →
      Reachable L'
  | deleteTxn (L : BudgetLedger) (tid : String) : Reachable L →
      Reachable (deleteTransaction L tid)
  | assign (L : BudgetLedger) (ids : List String) (cid : String) : Reachable L →
      (setTransactionsCategory L ids cid).2 = none →
      Reachable ((setTransactionsCategory L ids cid).1)
  | recalc (L : BudgetLedger) : Reachable L → Reachable (recalculateActuals L)

/-- A concrete ledger: one category `"Groceries"` under id `"c1"`. -/
def sampleLedger1 : BudgetLedger :=
  addCategory (BudgetLedger.mk [] []) "Groceries" 200 none "c1"

/-- The concrete ledger after recording a `-35` transaction on `"c1"`. -/
def sampleLedger2 : BudgetLedger :=
  BudgetLedger.mk [BudgetCategory.mk "Groceries" 200 (-35) "c1"]
    [Transaction.mk "Tesco Express" (-35) "2024-01-05" (some "c1") "t1"
      none none none (some "r1")]

/-- A transaction carrying only a description, for classifier scenarios. -/
def descTxn (d : String) : Transaction :=
  Transaction.mk d 0 "" none "t" none none none none

/-- Thirteen labelled examples; the oldest one is the `"starbucks"`
transaction labelled `"Coffee"`, the twelve newer ones use disjoint tokens. -/
def cex7Examples : List (Transaction × String) :=
  (descTxn "starbucks", "Coffee") ::
    (List.range 12).map (fun i => (descTxn ("alpha" ++ toString i), "Other"))

/-- One `suggest_category` call on a fresh single-example input, as a fold
step over the call index. -/
def cl8Step (st : ClassifierState) (i : Nat) : ClassifierState :=
  (suggestCategory st (descTxn ("m" ++ toString i)) []
    [(descTxn ("m" ++ toString i), "X")]).2

/-- A CSV row with an account and an amount but no resolvable date. -/
def noDateRow : CsvRow :=
  CsvRow.mk "" "" "NL01BANK0123456789" "12,50" "Shop" "" "" "" "r1" "" "" "" "" ""

/-- A CSV row with an account, an amount, a date and reference `"r1"`. -/
def goodRow : CsvRow :=
  CsvRow.mk "2024-01-05" "" "NL01BANK0123456789" "12,50" "Shop" "" "" "" "r1" "" "" "" "" ""

/-- A CSV row lacking an account identifier. -/
def noAccountRow : CsvRow :=
  CsvRow.mk "2024-01-05" "" "" "99,99" "X" "" "" "" "r2" "" "" "" "" ""

/-- The ledger obtained by importing `goodRow` (and skipping `noAccountRow`)
into the empty ledger. -/
def importedSample : BudgetLedger :=
  BudgetLedger.mk []
    [Transaction.mk "Shop | r1" (25/2) "2024-01-05" none "r1"
      (some "NL01BANK0123456789") none (some "Shop") (some "r1")]

/-! ### Association-list dictionary lemmas -/

/-- The key sequence of a category dict. -/
def keysOf (cats : List BudgetCategory) : List String :=
  cats.map (fun c => c.category_id)

@[simp]
theorem keysOf_nil : keysOf [] = [] := rfl

@[simp]
theorem keysOf_cons (c : BudgetCategory) (rest : List BudgetCategory) :
    keysOf (c :: rest) = c.category_id :: keysOf rest := rfl

@[simp]
theorem keysOf_append (l1 l2 : List BudgetCategory) :
    keysOf (l1 ++ l2) = keysOf l1 ++ keysOf l2 := by
  simp [keysOf]

theorem mem_keysOf (cats : List BudgetCategory) (cid : String) :
    cid ∈ keysOf cats ↔ ∃ c ∈ cats, c.category_id = cid := by
  simp [keysOf]

@[simp]
theorem setActual_category_id (c : BudgetCategory) (a : ℚ) :
    (setActual c a).category_id = c.category_id := rfl

@[simp]
theorem setActual_actual_amount (c : BudgetCategory) (a : ℚ) :
    (setActual c a).actual_amount = a := rfl

@[simp]
theorem setActual_name (c : BudgetCategory) (a : ℚ) :
    (setActual c a).name = c.name := rfl

@[simp]
theorem setActual_planned_amount (c : BudgetCategory) (a : ℚ) :
    (setActual c a).planned_amount = c.planned_amount := rfl

@[simp]
theorem setActual_setActual (c : BudgetCategory) (a b : ℚ) :
    setActual (setActual c a) b = setActual c b := rfl

theorem containsKey_iff (cats : List BudgetCategory) (cid : String) :
    containsKey cats cid = true ↔ cid ∈ keysOf cats := by
  simp [containsKey, keysOf, List.any_eq_true]

theorem keysOf_modifyKey (f : BudgetCategory → BudgetCategory)
    (hf : ∀ c, (f c).category_id = c.category_id) (cid : String)
    (cats : List BudgetCategory) :
    keysOf (modifyKey f cid cats) = keysOf cats := by
  induction cats with
  | nil => rfl
  | cons c rest ih =>
    by_cases h : c.category_id = cid
    · simp [modifyKey, h, hf]
    · simp only [modifyKey, beq_iff_eq, h, if_false, keysOf_cons]
      exact congrArg _ ih

theorem containsKey_modifyKey (f : BudgetCategory → BudgetCategory)
    (hf : ∀ c, (f c).category_id = c.category_id) (cid cid' : String)
    (cats : List BudgetCategory) :
    containsKey (modifyKey f cid cats) cid' = containsKey cats cid' := by
  by_cases h : containsKey cats cid' = true
  · rw [h]
    rw [containsKey_iff, keysOf_modifyKey f hf, ← containsKey_iff]
    exact h
  · have h2 : ¬ containsKey (modifyKey f cid cats) cid' = true := by
      rw [containsKey_iff, keysOf_modifyKey f hf, ← containsKey_iff]
      exact h
    simp only [Bool.not_eq_true] at h h2
    rw [h, h2]

theorem lookupCat_modifyKey_same (f : BudgetCategory → BudgetCategory)
    (hf : ∀ c, (f c).category_id = c.category_id) (cid : String)
    (cats : List BudgetCategory) :
    lookupCat (modifyKey f cid cats) cid = (lookupCat cats cid).map f := by
  induction cats with
  | nil => rfl
  | cons c rest ih =>
    by_cases h : c.category_id = cid
    · simp [modifyKey, lookupCat, h, hf]
    · simp only [modifyKey, beq_iff_eq, h, if_false, lookupCat]
      exact ih

theorem lookupCat_modifyKey_ne (f : BudgetCategory → BudgetCategory)
    (hf : ∀ c, (f c).category_id = c.category_id) (cid cid' : String)
    (hne : cid' ≠ cid) (cats : List BudgetCategory) :
    lookupCat (modifyKey f cid cats) cid' = lookupCat cats cid' := by
  induction cats with
  | nil => rfl
  | cons c rest ih =>
    by_cases h : c.category_id = cid
    · have h1 : ¬ (f c).category_id = cid' := by
        rw [hf, h]
        exact fun hx => hne hx.symm
      have h2 : ¬ c.category_id = cid' := by
        rw [h]
        exact fun hx => hne hx.symm
      simp [modifyKey, h, lookupCat, h1, h2, Ne.symm hne]
    · simp only [modifyKey, beq_iff_eq, h, if_false, lookupCat]
      by_cases h3 : c.category_id = cid'
      · simp [h3]
      · simp only [beq_iff_eq, h3, if_false]
        exact ih

theorem lookupCat_eq_none (cats : List BudgetCategory) (cid : String)
    (h : cid ∉ keysOf cats) : lookupCat cats cid = none := by
  induction cats with
  | nil => rfl
  | cons c rest ih =>
    simp only [keysOf_cons, List.mem_cons, not_or] at h
    have h1 : ¬ c.category_id = cid := fun hx => h.1 hx.symm
    simp only [lookupCat, beq_iff_eq, h1, if_false]
    exact ih h.2

theorem lookupCat_mem (cats : List BudgetCategory) (cid : String)
    (c : BudgetCategory) (h : lookupCat cats cid = some c) :
    c ∈ cats ∧ c.category_id = cid := by
  induction cats with
  | nil => exact absurd h (by simp [lookupCat])
  | cons d rest ih =>
    by_cases hd : d.category_id = cid
    · simp only [lookupCat, beq_iff_eq, hd, if_true, Option.some.injEq] at h
      subst h
      exact ⟨List.mem_cons_self _ _, hd⟩
    · simp only [lookupCat, beq_iff_eq, hd, if_false] at h
      have := ih h
      exact ⟨List.mem_cons_of_mem _ this.1, this.2⟩

theorem mem_lookupCat (cats : List BudgetCategory) (c : BudgetCategory)
    (hnodup : (keysOf cats).Nodup) (h : c ∈ cats) :
    lookupCat cats c.category_id = some c := by
  induction cats with
  | nil => cases h
  | cons d rest ih =>
    have hnd : d.category_id ∉ keysOf rest ∧ (keysOf rest).Nodup := by
      simpa using List.nodup_cons.mp (by simpa using hnodup)
    rcases List.mem_cons.mp h with rfl | hrest
    · simp [lookupCat]
    · have hmem : c.category_id ∈ keysOf rest := by
        rw [mem_keysOf]
        exact ⟨c, hrest, rfl⟩
      have hd : ¬ d.category_id = c.category_id := fun he => hnd.1 (he ▸ hmem)
      simp only [lookupCat, beq_iff_eq, hd, if_false]
      exact ih hnd.2 hrest

theorem eq_of_keys_lookup (l1 l2 : List BudgetCategory)
    (hk : keysOf l1 = keysOf l2) (hnodup : (keysOf l1).Nodup)
    (hl : ∀ k, lookupCat l1 k = lookupCat l2 k) : l1 = l2 := by
  induction l1 generalizing l2 with
  | nil =>
    cases l2 with
    | nil => rfl
    | cons d r2 => exact absurd hk (by simp)
  | cons c r1 ih =>
    cases l2 with
    | nil => exact absurd hk (by simp)
    | cons d r2 =>
      simp only [keysOf_cons, List.cons.injEq] at hk
      have hnd : c.category_id ∉ keysOf r1 ∧ (keysOf r1).Nodup := by
        simpa using List.nodup_cons.mp (by simpa using hnodup)
      have hcd : c = d := by
        have hx := hl c.category_id
        simp only [lookupCat, beq_iff_eq, if_pos rfl] at hx
        rw [if_pos hk.1.symm] at hx
        exact Option.some.inj hx
      subst hcd
      refine congrArg _ (ih r2 hk.2 hnd.2 ?_)
      intro k
      by_cases hkc : k = c.category_id
      · subst hkc
        rw [lookupCat_eq_none r1 _ hnd.1, lookupCat_eq_none r2 _ (hk.2 ▸ hnd.1)]
      · have hx := hl k
        have h1 : ¬ c.category_id = k := fun hh => hkc hh.symm
        simp only [lookupCat, beq_iff_eq, h1, if_false] at hx
        exact hx

/-! ### Characterisation of `recalculate_actuals` -/

@[simp]
theorem setActual_self (c : BudgetCategory) : setActual c c.actual_amount = c := rfl

@[simp]
theorem catTotal_nil (cid : String) : catTotal [] cid = 0 := rfl

theorem catTotal_cons (t : Transaction) (ts : List Transaction) (cid : String) :
    catTotal (t :: ts) cid =
      (if t.category_id = some cid then t.amount else 0) + catTotal ts cid := by
  by_cases h : t.category_id = some cid <;> simp [catTotal, h]

theorem catTotal_append (ts1 ts2 : List Transaction) (cid : String) :
    catTotal (ts1 ++ ts2) cid = catTotal ts1 cid + catTotal ts2 cid := by
  simp [catTotal, List.filter_append]

theorem keysOf_applyToCategory (cats : List BudgetCategory) (cid : String) (a : ℚ) :
    keysOf (applyToCategory cats cid a) = keysOf cats := by
  unfold applyToCategory
  exact keysOf_modifyKey (fun c => setActual c (c.actual_amount + a)) (fun _ => rfl) cid cats

theorem containsKey_applyToCategory (cats : List BudgetCategory)
    (cid cid' : String) (a : ℚ) :
    containsKey (applyToCategory cats cid a) cid' = containsKey cats cid' := by
  unfold applyToCategory
  exact containsKey_modifyKey (fun c => setActual c (c.actual_amount + a)) (fun _ => rfl) cid cid' cats

theorem lookupCat_applyToCategory_same (cats : List BudgetCategory)
    (cid : String) (a : ℚ) :
    lookupCat (applyToCategory cats cid a) cid =
      (lookupCat cats cid).map (fun c => setActual c (c.actual_amount + a)) := by
  unfold applyToCategory
  exact lookupCat_modifyKey_same (fun c => setActual c (c.actual_amount + a)) (fun _ => rfl) cid cats

theorem lookupCat_applyToCategory_ne (cats : List BudgetCategory)
    (cid cid' : String) (a : ℚ) (h : cid' ≠ cid) :
    lookupCat (applyToCategory cats cid a) cid' = lookupCat cats cid' := by
  unfold applyToCategory
  exact lookupCat_modifyKey_ne (fun c => setActual c (c.actual_amount + a)) (fun _ => rfl) cid cid' h cats

theorem keysOf_recalcStep (cats : List BudgetCategory) (t : Transaction) :
    keysOf (recalcStep cats t) = keysOf cats := by
  obtain ⟨d, a, o, tcid, tid, aid, an, cp, rf⟩ := t
  cases tcid with
  | none => rfl
  | some cid2 =>
    show keysOf (if !(cid2 == "") && containsKey cats cid2 then
      applyToCategory cats cid2 a else cats) = keysOf cats
    by_cases h : (!(cid2 == "") && containsKey cats cid2) = true
    · rw [if_pos h]
      exact keysOf_applyToCategory _ _ _
    · rw [if_neg h]

theorem containsKey_recalcStep (cats : List BudgetCategory) (t : Transaction)
    (cid' : String) :
    containsKey (recalcStep cats t) cid' = containsKey cats cid' := by
  obtain ⟨d, a, o, tcid, tid, aid, an, cp, rf⟩ := t
  cases tcid with
  | none => rfl
  | some cid2 =>
    show containsKey (if !(cid2 == "") && containsKey cats cid2 then
      applyToCategory cats cid2 a else cats) cid' = containsKey cats cid'
    by_cases h : (!(cid2 == "") && containsKey cats cid2) = true
    · rw [if_pos h]
      exact containsKey_applyToCategory _ _ _ _
    · rw [if_neg h]

theorem keysOf_foldl_recalcStep (txns : List Transaction)
    (cats : List BudgetCategory) :
    keysOf (txns.foldl recalcStep cats) = keysOf cats := by
  induction txns generalizing cats with
  | nil => rfl
  | cons t ts ih => rw [List.foldl_cons, ih, keysOf_recalcStep]

theorem lookupCat_foldl_recalcStep (txns : List Transaction)
    (cats : List BudgetCategory) (cid : String) (hne : cid ≠ "")
    (hmem : containsKey cats cid = true) :
    lookupCat (txns.foldl recalcStep cats) cid =
      (lookupCat cats cid).map
        (fun c => setActual c (c.actual_amount + catTotal txns cid)) := by
  induction txns generalizing cats with
  | nil =>
    cases h : lookupCat cats cid <;> simp [h]
  | cons t ts ih =>
    obtain ⟨d, a, o, tcid, tid, aid, an, cp, rf⟩ := t
    rw [List.foldl_cons, catTotal_cons,
      ih _ (by rw [containsKey_recalcStep]; exact hmem)]
    cases tcid with
    | none =>
      cases h : lookupCat cats cid <;> simp [h, recalcStep]
    | some cid2 =>
      by_cases h2 : cid2 = cid
      · subst h2
        have hcond : (!(cid2 == "") && containsKey cats cid2) = true := by
          simp only [Bool.and_eq_true, Bool.not_eq_true', beq_eq_false_iff_ne]
          exact ⟨hne, hmem⟩
        have hstep : recalcStep cats (Transaction.mk d a o (some cid2) tid aid an cp rf) =
            applyToCategory cats cid2 a := by
          show (if !(cid2 == "") && containsKey cats cid2 then
            applyToCategory cats cid2 a else cats) = applyToCategory cats cid2 a
          rw [if_pos hcond]
        rw [hstep, lookupCat_applyToCategory_same]
        cases h : lookupCat cats cid2 <;> simp [h, add_assoc]
      · have hstep :
            lookupCat (recalcStep cats (Transaction.mk d a o (some cid2) tid aid an cp rf)) cid =
              lookupCat cats cid := by
          show lookupCat (if !(cid2 == "") && containsKey cats cid2 then
            applyToCategory cats cid2 a else cats) cid = lookupCat cats cid
          by_cases hcond : (!(cid2 == "") && containsKey cats cid2) = true
          · rw [if_pos hcond]
            exact lookupCat_applyToCategory_ne _ _ _ _ (fun hx => h2 hx.symm)
          · rw [if_neg hcond]
        rw [hstep]
        cases h : lookupCat cats cid <;> simp [h, h2]

theorem lookupCat_map (f : BudgetCategory → BudgetCategory)
    (hf : ∀ c, (f c).category_id = c.category_id) (cats : List BudgetCategory)
    (cid : String) :
    lookupCat (cats.map f) cid = (lookupCat cats cid).map f := by
  induction cats with
  | nil => rfl
  | cons c rest ih =>
    by_cases h : c.category_id = cid
    · simp [lookupCat, h, hf]
    · simp only [List.map_cons, lookupCat, hf, beq_iff_eq, h, if_false]
      exact ih

theorem keysOf_map (f : BudgetCategory → BudgetCategory)
    (hf : ∀ c, (f c).category_id = c.category_id) (cats : List BudgetCategory) :
    keysOf (cats.map f) = keysOf cats := by
  simp [keysOf, Function.comp, hf]

/-- `recalculate_actuals` rewrites every category's actual to the exact sum of
its assigned transactions, provided keys are unique and non-empty. -/
theorem recalc_categories (L : BudgetLedger) (hnodup : KeysNodup L)
    (hne : CatIdsNonempty L) :
    (recalculateActuals L).categories =
      L.categories.map (fun c => setActual c (catTotal L.transactions c.category_id)) := by
  have hrw : (recalculateActuals L).categories =
      L.transactions.foldl recalcStep (L.categories.map (fun c => setActual c 0)) := rfl
  have hkz : keysOf (L.categories.map (fun c => setActual c 0)) = keysOf L.categories :=
    keysOf_map (fun c => setActual c 0) (fun _ => rfl) _
  apply eq_of_keys_lookup
  · rw [hrw, keysOf_foldl_recalcStep, hkz,
      keysOf_map (fun c => setActual c (catTotal L.transactions c.category_id)) (fun _ => rfl)]
  · rw [hrw, keysOf_foldl_recalcStep, hkz]
    exact hnodup
  · intro k
    rw [hrw]
    by_cases hk0 : containsKey L.categories k = true
    · have hk : containsKey (L.categories.map (fun c => setActual c 0)) k = true := by
        rw [containsKey_iff, hkz, ← containsKey_iff]
        exact hk0
      have hkne : k ≠ "" := by
        rw [containsKey_iff, mem_keysOf] at hk0
        obtain ⟨c, hc, rfl⟩ := hk0
        exact hne c hc
      rw [lookupCat_foldl_recalcStep _ _ _ hkne hk,
        lookupCat_map (fun c => setActual c 0) (fun _ => rfl),
        lookupCat_map (fun c => setActual c (catTotal L.transactions c.category_id))
          (fun _ => rfl)]
      cases h : lookupCat L.categories k with
      | none => rfl
      | some c =>
        have hcid : c.category_id = k := (lookupCat_mem _ _ _ h).2
        simp [hcid]
    · have hk : ¬ containsKey (L.categories.map (fun c => setActual c 0)) k = true := by
        rw [containsKey_iff, hkz, ← containsKey_iff]
        exact hk0
      rw [lookupCat_eq_none _ _ (by
          rw [keysOf_foldl_recalcStep, hkz]
          rw [containsKey_iff] at hk0
          exact hk0),
        lookupCat_eq_none _ _ (by
          rw [keysOf_map (fun c => setActual c (catTotal L.transactions c.category_id))
            (fun _ => rfl)]
          rw [containsKey_iff] at hk0
          exact hk0)]

/-! ### Preservation of well-formedness by the ledger operations -/

theorem catTotal_eq_zero (txns : List Transaction) (cid : String)
    (h : ∀ t ∈ txns, ¬ t.category_id = some cid) : catTotal txns cid = 0 := by
  unfold catTotal
  rw [List.filter_eq_nil_iff.mpr (by simpa using h)]
  rfl

theorem catTotal_filter_ne (txns : List Transaction) (cid cid' : String)
    (h : cid' ≠ cid) :
    catTotal (txns.filter (fun t => !(t.category_id == some cid))) cid' =
      catTotal txns cid' := by
  induction txns with
  | nil => rfl
  | cons t ts ih =>
    by_cases hc : t.category_id = some cid
    · rw [List.filter_cons_of_neg (by simp [hc]), ih, catTotal_cons,
        if_neg (by rw [hc]; exact fun hx => h (Option.some.inj hx).symm), zero_add]
    · rw [List.filter_cons_of_pos (by simp [hc]), catTotal_cons, catTotal_cons, ih]

theorem containsKey_append (l1 l2 : List BudgetCategory) (cid : String) :
    containsKey (l1 ++ l2) cid = (containsKey l1 cid || containsKey l2 cid) := by
  simp [containsKey]

theorem mem_eraseKey (cats : List BudgetCategory) (cid : String)
    (c' : BudgetCategory) (hnodup : (keysOf cats).Nodup)
    (h : c' ∈ cats.eraseP (fun c => c.category_id == cid)) :
    c' ∈ cats ∧ c'.category_id ≠ cid := by
  induction cats with
  | nil => cases h
  | cons c rest ih =>
    have hnd : c.category_id ∉ keysOf rest ∧ (keysOf rest).Nodup := by
      simpa using List.nodup_cons.mp (by simpa using hnodup)
    by_cases hc : c.category_id = cid
    · rw [List.eraseP_cons_of_pos (by simp [hc])] at h
      refine ⟨List.mem_cons_of_mem _ h, ?_⟩
      intro he
      exact hnd.1 (hc ▸ he ▸ (mem_keysOf _ _).mpr ⟨c', h, rfl⟩)
    · rw [List.eraseP_cons_of_neg (by simp [hc])] at h
      rcases List.mem_cons.mp h with rfl | hr
      · exact ⟨List.mem_cons_self _ _, hc⟩
      · have := ih hnd.2 hr
        exact ⟨List.mem_cons_of_mem _ this.1, this.2⟩

theorem containsKey_eraseKey (cats : List BudgetCategory) (cid cid' : String)
    (hne : cid' ≠ cid) :
    containsKey (cats.eraseP (fun c => c.category_id == cid)) cid' =
      containsKey cats cid' := by
  induction cats with
  | nil => rfl
  | cons c rest ih =>
    by_cases hc : c.category_id = cid
    · rw [List.eraseP_cons_of_pos (by simp [hc])]
      have : ¬ c.category_id = cid' := by
        rw [hc]
        exact fun hx => hne hx.symm
      simp [containsKey, this]
    · rw [List.eraseP_cons_of_neg (by simp [hc])]
      simp only [containsKey, List.any_cons] at ih ⊢
      rw [ih]

theorem keysOf_eraseKey_sublist (cats : List BudgetCategory) (cid : String) :
    (keysOf (cats.eraseP (fun c => c.category_id == cid))).Sublist (keysOf cats) :=
  List.Sublist.map _ (List.eraseP_sublist _)

theorem modifyKey_eq_map (f : BudgetCategory → BudgetCategory) (cid : String)
    (cats : List BudgetCategory) (hnodup : (keysOf cats).Nodup) :
    modifyKey f cid cats =
      cats.map (fun c => if c.category_id = cid then f c else c) := by
  induction cats with
  | nil => rfl
  | cons c rest ih =>
    have hnd : c.category_id ∉ keysOf rest ∧ (keysOf rest).Nodup := by
      simpa using List.nodup_cons.mp (by simpa using hnodup)
    by_cases hc : c.category_id = cid
    · rw [show modifyKey f cid (c :: rest) = f c :: rest from by
        simp [modifyKey, hc]]
      simp only [List.map_cons, if_pos hc]
      refine congrArg _ ?_
      have : ∀ x ∈ rest, (if x.category_id = cid then f x else x) = x := by
        intro x hx
        rw [if_neg]
        intro he
        exact hnd.1 (hc ▸ he ▸ (mem_keysOf _ _).mpr ⟨x, hx, rfl⟩)
      rw [List.map_congr_left this]
      exact (List.map_id rest).symm ▸ rfl
    · rw [show modifyKey f cid (c :: rest) = c :: modifyKey f cid rest from by
        simp [modifyKey, hc]]
      simp only [List.map_cons, if_neg hc]
      exact congrArg _ (ih hnd.2)

theorem WF_empty : WF (BudgetLedger.mk [] []) := by
  refine ⟨List.nodup_nil, ?_, ?_, ?_⟩
  · intro c hc
    cases hc
  · intro t ht
    cases ht
  · intro c hc
    cases hc

theorem recalc_invariant (L : BudgetLedger) (h1 : KeysNodup L)
    (h2 : CatIdsNonempty L) : ActualsInvariant (recalculateActuals L) := by
  intro c hc
  rw [recalc_categories L h1 h2] at hc
  obtain ⟨c0, _, rfl⟩ := List.mem_map.mp hc
  simp only [setActual_actual_amount, setActual_category_id]
  rfl

theorem keysOf_recalc (L : BudgetLedger) :
    keysOf (recalculateActuals L).categories = keysOf L.categories := by
  show keysOf (L.transactions.foldl recalcStep _) = _
  rw [keysOf_foldl_recalcStep, keysOf_map (fun c => setActual c 0) (fun _ => rfl)]

theorem WF_recalc (L : BudgetLedger) (h1 : KeysNodup L) (h2 : CatIdsNonempty L)
    (h3 : NoDangling L) : WF (recalculateActuals L) := by
  refine ⟨?_, ?_, ?_, recalc_invariant L h1 h2⟩
  · show (keysOf (recalculateActuals L).categories).Nodup
    rw [keysOf_recalc]
    exact h1
  · intro c hc
    rw [recalc_categories L h1 h2] at hc
    obtain ⟨c0, hc0, rfl⟩ := List.mem_map.mp hc
    simpa using h2 c0 hc0
  · intro t ht cid hcid hne
    have hck := h3 t ht cid hcid hne
    rw [containsKey_iff, keysOf_recalc, ← containsKey_iff]
    exact hck

theorem WF_addCategory (L : BudgetLedger) (nm : String) (planned : ℚ)
    (given : Option String) (genId : String) (hWF : WF L)
    (hne : resolveId given genId ≠ "")
    (hfresh : containsKey L.categories (resolveId given genId) = false) :
    WF (addCategory L nm planned given genId) := by
  obtain ⟨h1, h2, h3, h4⟩ := hWF
  have hnotmem : resolveId given genId ∉ keysOf L.categories := by
    intro hmem
    rw [← containsKey_iff, hfresh] at hmem
    cases hmem
  have hcats : (addCategory L nm planned given genId).categories =
      L.categories ++ [BudgetCategory.mk nm planned 0 (resolveId given genId)] := by
    show dictInsert _ _ = _
    unfold dictInsert
    rw [if_neg (by rw [hfresh]; exact Bool.false_ne_true)]
  refine ⟨?_, ?_, ?_, ?_⟩
  · show (keysOf (addCategory L nm planned given genId).categories).Nodup
    rw [hcats, keysOf_append]
    rw [List.nodup_append]
    refine ⟨h1, List.nodup_singleton _, ?_⟩
    intro x hx hx2
    rcases List.mem_singleton.mp hx2 with rfl
    exact hnotmem hx
  · intro c hc
    rw [hcats] at hc
    rcases List.mem_append.mp hc with hx | hx
    · exact h2 c hx
    · rcases List.mem_singleton.mp hx with rfl
      exact hne
  · intro t ht cid hcid hcne
    have hck := h3 t ht cid hcid hcne
    rw [containsKey_iff] at hck ⊢
    rw [hcats, keysOf_append]
    exact List.mem_append_left _ hck
  · intro c hc
    rw [hcats] at hc
    rcases List.mem_append.mp hc with hx | hx
    · exact h4 c hx
    · rcases List.mem_singleton.mp hx with rfl
      show (0 : ℚ) = catTotal L.transactions (resolveId given genId)
      symm
      apply catTotal_eq_zero
      intro t ht hx2
      have hck := h3 t ht _ hx2 hne
      rw [hfresh] at hck
      cases hck

theorem WF_updateCategory (L L' : BudgetLedger) (cid : String)
    (nm : Option String) (planned : Option ℚ) (hWF : WF L)
    (h : updateCategory L cid nm planned = Except.ok L') : WF L' := by
  obtain ⟨h1, h2, h3, h4⟩ := hWF
  unfold updateCategory at h
  by_cases hk : containsKey L.categories cid = true
  · rw [if_pos hk] at h
    injection h with h
    subst h
    have hmap := modifyKey_eq_map
      (fun c => BudgetCategory.mk (nm.getD c.name) (planned.getD c.planned_amount)
        c.actual_amount c.category_id) cid L.categories h1
    refine ⟨?_, ?_, ?_, ?_⟩
    · show (keysOf (modifyKey _ cid L.categories)).Nodup
      rw [keysOf_modifyKey
        (fun c => BudgetCategory.mk (nm.getD c.name) (planned.getD c.planned_amount)
          c.actual_amount c.category_id) (fun _ => rfl)]
      exact h1
    · intro c hc
      rw [hmap] at hc
      obtain ⟨c0, hc0, rfl⟩ := List.mem_map.mp hc
      by_cases hcc : c0.category_id = cid
      · rw [if_pos hcc]
        exact h2 c0 hc0
      · rw [if_neg hcc]
        exact h2 c0 hc0
    · intro t ht cid2 hcid2 hcne2
      show containsKey (modifyKey _ cid L.categories) cid2 = true
      rw [containsKey_modifyKey
        (fun c => BudgetCategory.mk (nm.getD c.name) (planned.getD c.planned_amount)
          c.actual_amount c.category_id) (fun _ => rfl)]
      exact h3 t ht cid2 hcid2 hcne2
    · intro c hc
      rw [hmap] at hc
      obtain ⟨c0, hc0, rfl⟩ := List.mem_map.mp hc
      by_cases hcc : c0.category_id = cid
      · rw [if_pos hcc]
        exact h4 c0 hc0
      · rw [if_neg hcc]
        exact h4 c0 hc0
  · rw [if_neg hk] at h
    cases h

theorem WF_removeCategory (L : BudgetLedger) (cid : String) (hWF : WF L) :
    WF (removeCategory L cid) := by
  obtain ⟨h1, h2, h3, h4⟩ := hWF
  refine ⟨?_, ?_, ?_, ?_⟩
  · show (keysOf (L.categories.eraseP (fun c => c.category_id == cid))).Nodup
    exact h1.sublist (keysOf_eraseKey_sublist L.categories cid)
  · intro c hc
    exact h2 c (mem_eraseKey _ _ _ h1 hc).1
  · intro t ht cid2 hcid2 hcne2
    have htm := List.mem_filter.mp ht
    have hck := h3 t htm.1 cid2 hcid2 hcne2
    have hneq : cid2 ≠ cid := by
      intro he
      subst he
      rw [hcid2] at htm
      simpa using htm.2
    show containsKey (L.categories.eraseP (fun c => c.category_id == cid)) cid2 = true
    rw [containsKey_eraseKey _ _ _ hneq]
    exact hck
  · intro c hc
    have hc2 := mem_eraseKey _ _ _ h1 hc
    show c.actual_amount =
      catTotal (L.transactions.filter (fun t => !(t.category_id == some cid)))
        c.category_id
    rw [catTotal_filter_ne _ _ _ hc2.2]
    exact h4 c hc2.1

theorem WF_record (L L' : BudgetLedger) (description : String) (amount : ℚ)
    (category_id : Option String) (occurred_on : String)
    (transaction_id : Option String)
    (account_id account_name counterparty reference : Option String)
    (genId : String) (hWF : WF L)
    (h : recordTransaction L description amount category_id occurred_on
      transaction_id account_id account_name counterparty reference genId =
      Except.ok L') : WF L' := by
  obtain ⟨h1, h2, h3, h4⟩ := hWF
  unfold recordTransaction at h
  by_cases hg : (pyTruthy category_id &&
      !(containsKey L.categories (category_id.getD ""))) = true
  · rw [if_pos hg] at h
    cases h
  · rw [if_neg hg] at h
    by_cases ht : pyTruthy category_id = true
    · rw [if_pos ht] at h
      injection h with h
      subst h
      obtain ⟨cid, hcid, hcidne⟩ :
          ∃ cid, category_id = some cid ∧ cid ≠ "" := by
        cases category_id with
        | none => cases ht
        | some s => exact ⟨s, rfl, by simpa [pyTruthy] using ht⟩
      subst hcid
      have hck : containsKey L.categories cid = true := by
        simp only [ht, Bool.true_and, Bool.not_eq_true', Option.getD_some,
          Bool.not_eq_true] at hg
        simpa using hg
      have hmap : applyToCategory L.categories ((some cid).getD "") amount =
          L.categories.map (fun c =>
            if c.category_id = cid then setActual c (c.actual_amount + amount)
            else c) := by
        unfold applyToCategory
        exact modifyKey_eq_map _ _ _ h1
      have htxn : (mkRecordedTxn description amount (some cid) occurred_on
          transaction_id account_id account_name counterparty reference
          genId).category_id = some cid := rfl
      refine ⟨?_, ?_, ?_, ?_⟩
      · show (keysOf (applyToCategory L.categories ((some cid).getD "") amount)).Nodup
        rw [keysOf_applyToCategory]
        exact h1
      · intro c hc
        rw [hmap] at hc
        obtain ⟨c0, hc0, rfl⟩ := List.mem_map.mp hc
        by_cases hcc : c0.category_id = cid
        · rw [if_pos hcc]
          simpa using h2 c0 hc0
        · rw [if_neg hcc]
          exact h2 c0 hc0
      · intro t htm cid2 hcid2 hcne2
        show containsKey (applyToCategory L.categories ((some cid).getD "") amount)
          cid2 = true
        rw [containsKey_applyToCategory]
        rcases List.mem_append.mp htm with hx | hx
        · exact h3 t hx cid2 hcid2 hcne2
        · rcases List.mem_singleton.mp hx with rfl
          rw [htxn] at hcid2
          rcases Option.some.inj hcid2 with rfl
          exact hck
      · intro c hc
        rw [hmap] at hc
        obtain ⟨c0, hc0, rfl⟩ := List.mem_map.mp hc
        by_cases hcc : c0.category_id = cid
        · rw [if_pos hcc]
          show c0.actual_amount + amount = catTotal (L.transactions ++ [_]) _
          rw [setActual_category_id, catTotal_append, h4 c0 hc0]
          have hz : catTotal [mkRecordedTxn description amount (some cid) occurred_on
              transaction_id account_id account_name counterparty reference genId]
              c0.category_id = amount := by
            rw [catTotal_cons, catTotal_nil, htxn, hcc, if_pos rfl, add_zero]
            rfl
          rw [hz]
        · rw [if_neg hcc]
          show c0.actual_amount = catTotal (L.transactions ++ [_]) c0.category_id
          have hz : catTotal [mkRecordedTxn description amount (some cid) occurred_on
              transaction_id account_id account_name counterparty reference genId]
              c0.category_id = 0 := by
            apply catTotal_eq_zero
            intro t htm2 hx
            rcases List.mem_singleton.mp htm2 with rfl
            rw [htxn] at hx
            exact hcc (Option.some.inj hx).symm
          rw [catTotal_append, hz, add_zero]
          exact h4 c0 hc0
    · rw [if_neg ht] at h
      injection h with h
      subst h
      have htxnid : ∀ cid2, (mkRecordedTxn description amount category_id occurred_on
          transaction_id account_id account_name counterparty reference
          genId).category_id = some cid2 → cid2 = "" := by
        intro cid2 hx
        cases category_id with
        | none => cases hx
        | some s =>
          have hs : s = "" := by
            by_cases hss : s = ""
            · exact hss
            · exact absurd (by simp [pyTruthy, hss]) ht
          rcases Option.some.inj hx with rfl
          exact hs
      refine ⟨h1, h2, ?_, ?_⟩
      · intro t htm cid2 hcid2 hcne2
        rcases List.mem_append.mp htm with hx | hx
        · exact h3 t hx cid2 hcid2 hcne2
        · rcases List.mem_singleton.mp hx with rfl
          exact absurd (htxnid cid2 hcid2) hcne2
      · intro c hc
        show c.actual_amount = catTotal (L.transactions ++ [_]) c.category_id
        have hz : catTotal [mkRecordedTxn description amount category_id occurred_on
            transaction_id account_id account_name counterparty reference genId]
            c.category_id = 0 := by
          apply catTotal_eq_zero
          intro t htm2 hx
          rcases List.mem_singleton.mp htm2 with rfl
          exact h2 c hc (htxnid _ hx)
        rw [catTotal_append, hz, add_zero]
        exact h4 c hc

theorem WF_deleteTransaction (L : BudgetLedger) (tid : String) (hWF : WF L) :
    WF (deleteTransaction L tid) := by
  obtain ⟨h1, h2, h3, _⟩ := hWF
  apply WF_recalc
  · exact h1
  · exact h2
  · intro t htm cid hcid hcne
    exact h3 t (List.mem_filter.mp htm).1 cid hcid hcne

theorem WF_assign (L : BudgetLedger) (ids : List String) (cid : String)
    (hWF : WF L) : WF ((setTransactionsCategory L ids cid).1) := by
  obtain ⟨h1, h2, h3, h4⟩ := hWF
  unfold setTransactionsCategory
  by_cases hk : (!(containsKey L.categories cid)) = true
  · rw [if_pos hk]
    exact ⟨h1, h2, h3, h4⟩
  · rw [if_neg hk]
    have hck : containsKey L.categories cid = true := by
      simpa using hk
    by_cases hemp : ids.isEmpty = true
    · rw [if_pos hemp]
      exact ⟨h1, h2, h3, h4⟩
    · rw [if_neg hemp]
      by_cases hupd :
          (!(L.transactions.any (fun t => ids.contains t.transaction_id))) = true
      · rw [if_pos hupd]
        have hall : ∀ t ∈ L.transactions, ¬ ids.contains t.transaction_id = true := by
          simp only [Bool.not_eq_true', List.any_eq_false] at hupd
          intro t htm
          simpa using hupd t htm
        have hsame : assignedTxns L.transactions ids cid = L.transactions := by
          unfold assignedTxns
          have : ∀ t ∈ L.transactions,
              (if ids.contains t.transaction_id then setTxnCategory t (some cid)
                else t) = t := by
            intro t htm
            rw [if_neg (hall t htm)]
          rw [List.map_congr_left this]
          exact List.map_id _
        show WF (BudgetLedger.mk L.categories (assignedTxns L.transactions ids cid))
        rw [hsame]
        exact ⟨h1, h2, h3, h4⟩
      · rw [if_neg hupd]
        show WF (recalculateActuals
          (BudgetLedger.mk L.categories (assignedTxns L.transactions ids cid)))
        apply WF_recalc
        · exact h1
        · exact h2
        · intro t htm cid2 hcid2 hcne2
          obtain ⟨t0, ht0, rfl⟩ := List.mem_map.mp htm
          by_cases hcn : ids.contains t0.transaction_id = true
          · rw [if_pos hcn] at hcid2
            have hx : some cid = some cid2 := hcid2
            rcases Option.some.inj hx with rfl
            exact hck
          · rw [if_neg hcn] at hcid2
            exact h3 t0 ht0 cid2 hcid2 hcne2

/-- Every reachable ledger state is well-formed. -/
theorem WF_of_reachable (L : BudgetLedger) (h : Reachable L) : WF L := by
  induction h with
  | empty => exact WF_empty
  | addCat L nm planned given genId _ hne hfresh ih =>
    exact WF_addCategory L nm planned given genId ih hne hfresh
  | updateCat L L' cid nm planned _ heq ih =>
    exact WF_updateCategory L L' cid nm planned ih heq
  | removeCat L cid _ ih => exact WF_removeCategory L cid ih
  | record L L' d a c o ti ai an cp rf g _ heq ih =>
    exact WF_record L L' d a c o ti ai an cp rf g ih heq
  | deleteTxn L tid _ ih => exact WF_deleteTransaction L tid ih
  | assign L ids cid _ _ ih => exact WF_assign L ids cid ih
  | recalc L _ ih => exact WF_recalc L ih.1 ih.2.1 ih.2.2.1

/-! ### Serialisation round trip -/

theorem foldl_dictInsert_append (cats : List BudgetCategory) :
    ∀ acc : List BudgetCategory,
      (∀ c ∈ cats, c.category_id ∉ keysOf acc) → (keysOf cats).Nodup →
      cats.foldl dictInsert acc = acc ++ cats := by
  induction cats with
  | nil =>
    intro acc _ _
    simp
  | cons c rest ih =>
    intro acc hdisj hnodup
    have hnd : c.category_id ∉ keysOf rest ∧ (keysOf rest).Nodup := by
      simpa using List.nodup_cons.mp (by simpa using hnodup)
    have hstep : dictInsert acc c = acc ++ [c] := by
      unfold dictInsert
      rw [if_neg]
      intro hck
      exact hdisj c (List.mem_cons_self _ _) ((containsKey_iff _ _).mp hck)
    rw [List.foldl_cons, hstep, ih (acc ++ [c]) ?_ hnd.2, List.append_assoc]
    rfl
    intro c2 hc2
    rw [keysOf_append]
    simp only [List.mem_append, keysOf_cons, keysOf_nil, List.mem_singleton, not_or]
    refine ⟨hdisj c2 (List.mem_cons_of_mem _ hc2), ?_⟩
    intro he
    exact hnd.1 (he ▸ (mem_keysOf _ _).mpr ⟨c2, hc2, rfl⟩)

theorem recalc_eq_self (L : BudgetLedger) (hWF : WF L) :
    recalculateActuals L = L := by
  obtain ⟨h1, h2, _, h4⟩ := hWF
  have hcats := recalc_categories L h1 h2
  have hmap : L.categories.map
      (fun c => setActual c (catTotal L.transactions c.category_id)) =
      L.categories := by
    have hall : ∀ c ∈ L.categories,
        setActual c (catTotal L.transactions c.category_id) = c := by
      intro c hc
      rw [← h4 c hc]
      exact setActual_self c
    rw [List.map_congr_left hall]
    exact List.map_id _
  have hL : recalculateActuals L =
      BudgetLedger.mk (recalculateActuals L).categories L.transactions := rfl
  rw [hL, hcats, hmap]

theorem ledgerFromDict_toDict (L : BudgetLedger) (hWF : WF L) :
    ledgerFromDict (ledgerToDict L) = L := by
  have hcats : (ledgerToDict L).categories.foldl
      (fun acc cp => dictInsert acc (categoryFromDict cp)) [] = L.categories := by
    show (L.categories.map categoryToDict).foldl
      (fun acc cp => dictInsert acc (categoryFromDict cp)) [] = L.categories
    rw [List.foldl_map]
    have : L.categories.foldl
        (fun acc c => dictInsert acc (categoryFromDict (categoryToDict c))) [] =
        L.categories.foldl dictInsert [] := rfl
    rw [this, foldl_dictInsert_append L.categories [] (by simp) hWF.1]
    rfl
  have htxns : (ledgerToDict L).transactions.map transactionFromDict =
      L.transactions := by
    show (L.transactions.map transactionToDict).map transactionFromDict =
      L.transactions
    rw [List.map_map]
    have : ∀ t ∈ L.transactions, (transactionFromDict ∘ transactionToDict) t = t :=
      fun t _ => rfl
    rw [List.map_congr_left this]
    exact List.map_id _
  show recalculateActuals (BudgetLedger.mk _ _) = L
  rw [hcats, htxns]
  exact recalc_eq_self L hWF

/-- Zero out a category's actual (the part of the state `recalculate_actuals`
discards). -/
def scrubCat (c : BudgetCategory) : BudgetCategory := setActual c 0

theorem scrub_modifyKey_congr (c1 c2 : BudgetCategory) (cid : String)
    (hc : scrubCat c1 = scrubCat c2) :
    ∀ acc1 acc2 : List BudgetCategory,
      acc1.map scrubCat = acc2.map scrubCat →
      (modifyKey (fun _ => c1) cid acc1).map scrubCat =
        (modifyKey (fun _ => c2) cid acc2).map scrubCat := by
  intro acc1
  induction acc1 with
  | nil =>
    intro acc2 hacc
    cases acc2 with
    | nil => rfl
    | cons a2 r2 => exact absurd hacc (by simp)
  | cons a1 r1 ih =>
    intro acc2 hacc
    cases acc2 with
    | nil => exact absurd hacc (by simp)
    | cons a2 r2 =>
      simp only [List.map_cons, List.cons.injEq] at hacc
      have hid : a1.category_id = a2.category_id := by
        have := congrArg (fun c => c.category_id) hacc.1
        simpa [scrubCat] using this
      by_cases hk : a1.category_id = cid
      · rw [show modifyKey (fun _ => c1) cid (a1 :: r1) = c1 :: r1 from by
          simp [modifyKey, hk]]
        rw [show modifyKey (fun _ => c2) cid (a2 :: r2) = c2 :: r2 from by
          simp [modifyKey, hid ▸ hk]]
        simp only [List.map_cons]
        rw [hc, hacc.2]
      · rw [show modifyKey (fun _ => c1) cid (a1 :: r1) = a1 :: modifyKey (fun _ => c1) cid r1
          from by simp [modifyKey, hk]]
        rw [show modifyKey (fun _ => c2) cid (a2 :: r2) = a2 :: modifyKey (fun _ => c2) cid r2
          from by simp [modifyKey, hid ▸ hk]]
        simp only [List.map_cons]
        rw [hacc.1, ih r2 hacc.2]

theorem scrub_dictInsert_congr (c1 c2 : BudgetCategory)
    (hc : scrubCat c1 = scrubCat c2) (acc1 acc2 : List BudgetCategory)
    (hacc : acc1.map scrubCat = acc2.map scrubCat) :
    (dictInsert acc1 c1).map scrubCat = (dictInsert acc2 c2).map scrubCat := by
  have hid : c1.category_id = c2.category_id := by
    have := congrArg (fun c => c.category_id) hc
    simpa [scrubCat] using this
  have hkeys : keysOf acc1 = keysOf acc2 := by
    have hk1 : keysOf (acc1.map scrubCat) = keysOf acc1 :=
      keysOf_map scrubCat (fun _ => rfl) acc1
    have hk2 : keysOf (acc2.map scrubCat) = keysOf acc2 :=
      keysOf_map scrubCat (fun _ => rfl) acc2
    rw [← hk1, ← hk2, hacc]
  have hck : containsKey acc1 c1.category_id = containsKey acc2 c2.category_id := by
    by_cases hx : containsKey acc1 c1.category_id = true
    · rw [hx]
      symm
      rw [containsKey_iff, ← hid, ← hkeys, ← containsKey_iff]
      exact hx
    · rw [Bool.not_eq_true] at hx
      rw [hx]
      symm
      rw [← Bool.not_eq_true, containsKey_iff, ← hid, ← hkeys, ← containsKey_iff,
        hx]
      exact Bool.false_ne_true
  unfold dictInsert
  by_cases hx : containsKey acc1 c1.category_id = true
  · rw [if_pos hx, if_pos (by rw [← hck]; exact hx), ← hid]
    exact scrub_modifyKey_congr c1 c2 c1.category_id hc acc1 acc2 hacc
  · rw [if_neg hx, if_neg (by rw [← hck]; exact hx)]
    simp only [List.map_append, List.map_cons, List.map_nil]
    rw [hacc, hc]

theorem recalc_scrub_congr (cats1 cats2 : List BudgetCategory)
    (txns : List Transaction) (h : cats1.map scrubCat = cats2.map scrubCat) :
    recalculateActuals (BudgetLedger.mk cats1 txns) =
      recalculateActuals (BudgetLedger.mk cats2 txns) := by
  show BudgetLedger.mk (txns.foldl recalcStep (cats1.map (fun c => setActual c 0))) txns =
    BudgetLedger.mk (txns.foldl recalcStep (cats2.map (fun c => setActual c 0))) txns
  have h2 : cats1.map (fun c => setActual c 0) = cats2.map (fun c => setActual c 0) := h
  rw [h2]

theorem ledgerFromDict_ignores_actuals (p : LedgerPayload) (g : ℚ → ℚ) :
    ledgerFromDict (mapStoredActuals g p) = ledgerFromDict p := by
  show recalculateActuals (BudgetLedger.mk _ _) = recalculateActuals (BudgetLedger.mk _ _)
  have htx : (mapStoredActuals g p).transactions.map transactionFromDict =
      p.transactions.map transactionFromDict := rfl
  rw [show (BudgetLedger.mk
      ((mapStoredActuals g p).categories.foldl
        (fun acc cp => dictInsert acc (categoryFromDict cp)) [])
      ((mapStoredActuals g p).transactions.map transactionFromDict)) =
    (BudgetLedger.mk
      ((mapStoredActuals g p).categories.foldl
        (fun acc cp => dictInsert acc (categoryFromDict cp)) [])
      (p.transactions.map transactionFromDict)) from by rw [htx]]
  apply recalc_scrub_congr
  show ((p.categories.map _).foldl (fun acc cp => dictInsert acc (categoryFromDict cp)) []).map scrubCat = _
  rw [List.foldl_map]
  have main : ∀ (l : List CategoryPayload) (acc1 acc2 : List BudgetCategory),
      acc1.map scrubCat = acc2.map scrubCat →
      (l.foldl (fun acc cp => dictInsert acc (categoryFromDict
        (CategoryPayload.mk cp.name cp.planned_amount (g cp.actual_amount)
          cp.category_id))) acc1).map scrubCat =
      (l.foldl (fun acc cp => dictInsert acc (categoryFromDict cp)) acc2).map
        scrubCat := by
    intro l
    induction l with
    | nil =>
      intro acc1 acc2 hacc
      exact hacc
    | cons cp rest ih =>
      intro acc1 acc2 hacc
      rw [List.foldl_cons, List.foldl_cons]
      apply ih
      exact scrub_dictInsert_congr
        (categoryFromDict (CategoryPayload.mk cp.name cp.planned_amount
          (g cp.actual_amount) cp.category_id))
        (categoryFromDict cp) rfl acc1 acc2 hacc
  exact main p.categories [] [] rfl

/-! ### Classifier memory lemmas -/

@[simp]
theorem memLookup_nil (k : String) : memLookup [] k = none := rfl

@[simp]
theorem memLookup_cons (e : String × ClassificationResult) (mem : Memory)
    (k : String) :
    memLookup (e :: mem) k = if e.1 == k then some e.2 else memLookup mem k := rfl

theorem memLookup_append_singleton (mem : Memory) (k : String)
    (v : ClassificationResult) (h : mem.any (fun e => e.1 == k) = false) :
    memLookup (mem ++ [(k, v)]) k = some v := by
  induction mem with
  | nil => simp
  | cons e rest ih =>
    simp only [List.any_cons, Bool.or_eq_false_iff] at h
    simp only [List.cons_append, memLookup_cons]
    rw [if_neg (by rw [h.1]; exact Bool.false_ne_true)]
    exact ih h.2

theorem memLookup_append_singleton_ne (mem : Memory) (k k' : String)
    (v : ClassificationResult) (h : k' ≠ k) :
    memLookup (mem ++ [(k, v)]) k' = memLookup mem k' := by
  induction mem with
  | nil => simp [show ¬ k = k' from fun hx => h hx.symm]
  | cons e rest ih =>
    simp only [List.cons_append, memLookup_cons]
    by_cases he2 : e.1 = k'
    · simp [he2]
    · simp only [beq_iff_eq, he2, if_false]
      exact ih

theorem memLookup_mapReplace_same (mem : Memory) (k : String)
    (v : ClassificationResult) (h : mem.any (fun e => e.1 == k) = true) :
    memLookup (mem.map (fun e => if e.1 == k then (k, v) else e)) k = some v := by
  induction mem with
  | nil => cases h
  | cons e rest ih =>
    by_cases he : e.1 = k
    · simp [he]
    · have h2 : rest.any (fun e => e.1 == k) = true := by
        simp only [List.any_cons, Bool.or_eq_true] at h
        rcases h with hx | hx
        · exact absurd (by simpa using hx) he
        · exact hx
      simpa [he] using ih h2

theorem memLookup_mapReplace_ne (mem : Memory) (k k' : String)
    (v : ClassificationResult) (h : k' ≠ k) :
    memLookup (mem.map (fun e => if e.1 == k then (k, v) else e)) k' =
      memLookup mem k' := by
  have hbk : ¬ k = k' := fun hx => h hx.symm
  induction mem with
  | nil => rfl
  | cons e rest ih =>
    by_cases he : e.1 = k
    · have he2 : ¬ e.1 = k' := by
        rw [he]
        exact hbk
      simpa [he, he2, hbk] using ih
    · by_cases he2 : e.1 = k'
      · simp [he, he2, h]
      · simpa [he, he2] using ih

theorem memLookup_memInsert_same (mem : Memory) (k : String)
    (v : ClassificationResult) : memLookup (memInsert mem k v) k = some v := by
  unfold memInsert
  by_cases hk : mem.any (fun e => e.1 == k) = true
  · rw [if_pos hk]
    exact memLookup_mapReplace_same mem k v hk
  · rw [if_neg hk]
    rw [Bool.not_eq_true] at hk
    exact memLookup_append_singleton mem k v hk

theorem memLookup_memInsert_ne (mem : Memory) (k k' : String)
    (v : ClassificationResult) (h : k' ≠ k) :
    memLookup (memInsert mem k v) k' = memLookup mem k' := by
  unfold memInsert
  by_cases hk : mem.any (fun e => e.1 == k) = true
  · rw [if_pos hk]
    exact memLookup_mapReplace_ne mem k k' v h
  · rw [if_neg hk]
    exact memLookup_append_singleton_ne mem k k' v h

theorem memLookup_updateMemory (cap : Nat) (mem : Memory)
    (examples : List (Transaction × String)) (key : String) (hkey : key ≠ "") :
    memLookup (updateMemory cap mem examples) key =
      match (pyTakeLast cap examples).reverse.find?
          (fun ex => normaliseTransaction ex.1 == key && !(ex.2 == "")) with
      | some e => some (ClassificationResult.mk e.2 (99/100))
      | none => memLookup mem key := by
  unfold updateMemory
  generalize pyTakeLast cap examples = l
  induction l using List.reverseRecOn with
  | nil => rfl
  | append_singleton xs x ih =>
    rw [List.foldl_append, List.reverse_append, List.reverse_singleton,
      List.singleton_append]
    by_cases hx : (normaliseTransaction x.1 == key && !(x.2 == "")) = true
    · have hfind : List.find?
          (fun ex => normaliseTransaction ex.1 == key && !(ex.2 == ""))
          (x :: xs.reverse) = some x := by
        rw [List.find?_cons, hx]
      rw [hfind]
      show memLookup (updateMemoryStep (xs.foldl updateMemoryStep mem) x) key = _
      have hparts : normaliseTransaction x.1 = key ∧ ¬ x.2 = "" := by
        simpa using hx
      have hstep : updateMemoryStep (xs.foldl updateMemoryStep mem) x =
          memInsert (xs.foldl updateMemoryStep mem) key
            (ClassificationResult.mk x.2 (99/100)) := by
        unfold updateMemoryStep
        rw [if_pos (by
          rw [hparts.1]
          simp [hkey, hparts.2]), hparts.1]
      rw [hstep]
      exact memLookup_memInsert_same _ _ _
    · have hxf : (normaliseTransaction x.1 == key && !(x.2 == "")) = false :=
        Bool.not_eq_true _ |>.mp hx
      have hfind : List.find?
          (fun ex => normaliseTransaction ex.1 == key && !(ex.2 == ""))
          (x :: xs.reverse) =
          List.find? (fun ex => normaliseTransaction ex.1 == key && !(ex.2 == ""))
            xs.reverse := by
        rw [List.find?_cons, hxf]
      rw [hfind]
      show memLookup (updateMemoryStep (xs.foldl updateMemoryStep mem) x) key = _
      have hstep : memLookup (updateMemoryStep (xs.foldl updateMemoryStep mem) x)
          key = memLookup (xs.foldl updateMemoryStep mem) key := by
        unfold updateMemoryStep
        by_cases hc : (!(normaliseTransaction x.1 == "") && !(x.2 == "")) = true
        · rw [if_pos hc]
          apply memLookup_memInsert_ne
          intro he
          rcases (Bool.and_eq_true _ _).mp hc with ⟨_, hb⟩
          exact hx (by
            rw [← he]
            simp [hb])
        · rw [if_neg hc]
      rw [hstep, ih]

theorem length_memInsert (mem : Memory) (k : String) (v : ClassificationResult) :
    (memInsert mem k v).length ≤ mem.length + 1 := by
  unfold memInsert
  by_cases hk : mem.any (fun e => e.1 == k) = true
  · rw [if_pos hk, List.length_map]
    exact Nat.le_succ _
  · rw [if_neg hk, List.length_append]
    rfl

theorem length_updateMemoryStep (mem : Memory) (e : Transaction × String) :
    (updateMemoryStep mem e).length ≤ mem.length + 1 := by
  unfold updateMemoryStep
  by_cases hc : (!(normaliseTransaction e.1 == "") && !(e.2 == "")) = true
  · rw [if_pos hc]
    exact length_memInsert _ _ _
  · rw [if_neg hc]
    exact Nat.le_succ _

theorem length_foldl_updateMemoryStep (l : List (Transaction × String)) :
    ∀ mem : Memory, (l.foldl updateMemoryStep mem).length ≤ mem.length + l.length := by
  induction l with
  | nil =>
    intro mem
    exact Nat.le_refl _
  | cons e rest ih =>
    intro mem
    rw [List.foldl_cons]
    calc (rest.foldl updateMemoryStep (updateMemoryStep mem e)).length
        ≤ (updateMemoryStep mem e).length + rest.length := ih _
      _ ≤ (mem.length + 1) + rest.length :=
          Nat.add_le_add_right (length_updateMemoryStep mem e) _
      _ = mem.length + (e :: rest).length := by
          rw [List.length_cons]
          omega

theorem length_updateMemory (cap : Nat) (mem : Memory)
    (examples : List (Transaction × String)) (hcap : 0 < cap) :
    (updateMemory cap mem examples).length ≤ mem.length + cap := by
  unfold updateMemory
  have hlen : (pyTakeLast cap examples).length ≤ cap := by
    unfold pyTakeLast
    rw [if_neg (Nat.pos_iff_ne_zero.mp hcap)]
    rw [List.length_drop]
    omega
  exact (length_foldl_updateMemoryStep _ mem).trans (Nat.add_le_add_left hlen _)

/-! ### CSV import lemmas -/

theorem strip_option_ne_empty (s : String) :
    (if pyStrip s == "" then none else some (pyStrip s)) ≠ some "" := by
  intro h
  by_cases hv : (pyStrip s == "") = true
  · rw [if_pos hv] at h
    cases h
  · rw [if_neg hv] at h
    exact hv (by
      rw [Option.some.inj h]
      rfl)

theorem referenceOf_ne_empty (r : CsvRow) : referenceOf r ≠ some "" := by
  intro h
  simp only [referenceOf] at h
  exact strip_option_ne_empty _ h

theorem recordTransaction_ok_txns (L L' : BudgetLedger) (description : String)
    (amount : ℚ) (category_id : Option String) (occurred_on : String)
    (transaction_id : Option String)
    (account_id account_name counterparty reference : Option String)
    (genId : String)
    (h : recordTransaction L description amount category_id occurred_on
      transaction_id account_id account_name counterparty reference genId =
      Except.ok L') :
    L'.transactions = L.transactions ++ [mkRecordedTxn description amount
      category_id occurred_on transaction_id account_id account_name counterparty
      reference genId] := by
  unfold recordTransaction at h
  by_cases hg : (pyTruthy category_id &&
      !(containsKey L.categories (category_id.getD ""))) = true
  · rw [if_pos hg] at h
    cases h
  · rw [if_neg hg] at h
    by_cases ht : pyTruthy category_id = true
    · rw [if_pos ht] at h
      injection h with h
      rw [← h]
    · rw [if_neg ht] at h
      injection h with h
      rw [← h]

theorem txnRefs_record (L L' : BudgetLedger) (description : String)
    (amount : ℚ) (category_id : Option String) (occurred_on : String)
    (transaction_id : Option String)
    (account_id account_name counterparty reference : Option String)
    (genId : String)
    (h : recordTransaction L description amount category_id occurred_on
      transaction_id account_id account_name counterparty reference genId =
      Except.ok L') :
    (∀ x ∈ txnRefs L, x ∈ txnRefs L') ∧
      (∀ r, reference = some r → r ∈ txnRefs L') := by
  have hshape := recordTransaction_ok_txns L L' description amount category_id
    occurred_on transaction_id account_id account_name counterparty reference
    genId h
  have hrefs : txnRefs L' = txnRefs L ++
      ([mkRecordedTxn description amount category_id occurred_on transaction_id
        account_id account_name counterparty reference genId].filterMap
        (fun t => t.reference)) := by
    unfold txnRefs
    rw [hshape, List.filterMap_append]
  constructor
  · intro x hx
    rw [hrefs]
    exact List.mem_append_left _ hx
  · intro r hr
    rw [hrefs]
    apply List.mem_append_right
    have : (mkRecordedTxn description amount category_id occurred_on
        transaction_id account_id account_name counterparty reference
        genId).reference = some r := hr
    simp [this]

theorem readRows_refs (rows : List CsvRow) :
    ∀ recs, readTransactionsFromRows rows = Except.ok recs →
      ∀ rec ∈ recs, rec.reference ≠ some "" := by
  induction rows with
  | nil =>
    intro recs h rec hrec
    injection h with h
    rw [← h] at hrec
    cases hrec
  | cons r rest ih =>
    intro recs h rec hrec
    simp only [readTransactionsFromRows] at h
    by_cases hacc : (pyStrip r.ibanBban == "") = true
    · rw [if_pos hacc] at h
      exact ih recs h rec hrec
    · rw [if_neg hacc] at h
      cases hamt : parseDecimalPy r.bedrag with
      | none =>
        rw [hamt] at h
        cases h
      | some amount =>
        rw [hamt] at h
        cases hdate : pickDate r with
        | none =>
          rw [hdate] at h
          cases h
        | some occ =>
          rw [hdate] at h
          cases hrest : readTransactionsFromRows rest with
          | error e =>
            rw [hrest] at h
            cases h
          | ok txns =>
            rw [hrest] at h
            injection h with h
            rw [← h] at hrec
            rcases List.mem_cons.mp hrec with rfl | hmem
            · exact referenceOf_ne_empty r
            · exact ih txns hrest rec hmem

theorem importLoop_mono (catMap : List (String × String)) (defCat : Option String)
    (skipExisting : Bool) (genIds : Nat → String) (recs : List CSVTransaction) :
    ∀ L refs idx, ∀ x ∈ txnRefs L,
      x ∈ txnRefs (importLoop catMap defCat skipExisting genIds L refs idx recs).1 := by
  induction recs with
  | nil =>
    intro L refs idx x hx
    exact hx
  | cons rec rest ih =>
    intro L refs idx x hx
    simp only [importLoop]
    by_cases hskip : importSkip skipExisting refs rec = true
    · rw [if_pos hskip]
      exact ih L refs (idx + 1) x hx
    · rw [if_neg hskip]
      cases hrec : recordTransaction L rec.description rec.amount
          (importCid catMap defCat rec) rec.occurred_on rec.reference
          (some rec.account_id) rec.account_name rec.counterparty rec.reference
          (genIds idx) with
      | error e => exact hx
      | ok L1 =>
        have hx1 : x ∈ txnRefs L1 :=
          (txnRefs_record L L1 _ _ _ _ _ _ _ _ _ _ hrec).1 x hx
        have hih := ih L1 (addRef refs rec) (idx + 1) x hx1
        show x ∈ txnRefs (match importLoop catMap defCat skipExisting genIds L1
            (addRef refs rec) (idx + 1) rest with
          | (L2, Except.ok n) => (L2, Except.ok (n + 1))
          | (L2, Except.error e) => (L2, Except.error e)).1
        cases hloop : importLoop catMap defCat skipExisting genIds L1
            (addRef refs rec) (idx + 1) rest with
        | mk L2 res =>
          rw [hloop] at hih
          cases res with
          | ok n => exact hih
          | error e => exact hih

theorem importLoop_refs (catMap : List (String × String)) (defCat : Option String)
    (genIds : Nat → String) (recs : List CSVTransaction) :
    ∀ L refs idx L1 n,
      importLoop catMap defCat true genIds L refs idx recs = (L1, Except.ok n) →
      (∀ x ∈ refs, x ∈ txnRefs L) →
      ∀ rec ∈ recs, ∀ r, rec.reference = some r → r ∈ txnRefs L1 := by
  induction recs with
  | nil =>
    intro L refs idx L1 n _ _ rec hrec
    cases hrec
  | cons rec0 rest ih =>
    intro L refs idx L1 n h hrefs rec hrec
    simp only [importLoop] at h
    by_cases hskip : importSkip true refs rec0 = true
    · rw [if_pos hskip] at h
      rcases List.mem_cons.mp hrec with rfl | hmem
      · intro r hr
        have hr0 : ∃ r0, rec.reference = some r0 ∧ r0 ≠ "" ∧ r0 ∈ refs := by
          unfold importSkip at hskip
          cases hx : rec.reference with
          | none =>
            rw [hx] at hskip
            simp at hskip
          | some r0 =>
            rw [hx] at hskip
            simp only [Bool.true_and, Bool.and_eq_true, Bool.not_eq_true',
              beq_eq_false_iff_ne] at hskip
            exact ⟨r0, rfl, hskip.1, by simpa using hskip.2⟩
        obtain ⟨r0, hr0eq, _, hr0mem⟩ := hr0
        rw [hr0eq] at hr
        rcases Option.some.inj hr with rfl
        have hx0 : r0 ∈ txnRefs L := hrefs r0 hr0mem
        have := importLoop_mono catMap defCat true genIds rest L refs (idx + 1)
          r0 hx0
        rw [h] at this
        exact this
      · exact ih L refs (idx + 1) L1 n h hrefs rec hmem
    · rw [if_neg hskip] at h
      cases hrec0 : recordTransaction L rec0.description rec0.amount
          (importCid catMap defCat rec0) rec0.occurred_on rec0.reference
          (some rec0.account_id) rec0.account_name rec0.counterparty
          rec0.reference (genIds idx) with
      | error e =>
        rw [hrec0] at h
        injection h with _ hbad
        cases hbad
      | ok Lr =>
        rw [hrec0] at h
        have h2 : (match importLoop catMap defCat true genIds Lr
            (addRef refs rec0) (idx + 1) rest with
          | (L2, Except.ok m) => (L2, Except.ok (m + 1))
          | (L2, Except.error e) => (L2, Except.error e)) = (L1, Except.ok n) := h
        have hmono := txnRefs_record L Lr _ _ _ _ _ _ _ _ _ _ hrec0
        have hrest : ∃ m, importLoop catMap defCat true genIds Lr
            (addRef refs rec0) (idx + 1) rest = (L1, Except.ok m) := by
          cases hloop : importLoop catMap defCat true genIds Lr
              (addRef refs rec0) (idx + 1) rest with
          | mk L2 res =>
            rw [hloop] at h2
            cases res with
            | ok m =>
              injection h2 with hx1 _
              exact ⟨m, by rw [hx1]⟩
            | error e =>
              injection h2 with _ hbad
              cases hbad
        obtain ⟨m, hloop⟩ := hrest
        have hrefs1 : ∀ x ∈ addRef refs rec0, x ∈ txnRefs Lr := by
          intro x hx
          unfold addRef at hx
          cases hx0 : rec0.reference with
          | none =>
            rw [hx0] at hx
            exact hmono.1 x (hrefs x hx)
          | some r0 =>
            rw [hx0] at hx
            have hx2 : x ∈ (if !(r0 == "") then r0 :: refs else refs) := hx
            by_cases hr0 : (r0 == "") = true
            · rw [if_neg (by rw [hr0]; simp)] at hx2
              exact hmono.1 x (hrefs x hx2)
            · rw [if_pos (by
                rw [Bool.not_eq_true] at hr0
                rw [hr0]
                rfl)] at hx2
              rcases List.mem_cons.mp hx2 with rfl | hx3
              · exact hmono.2 x hx0
              · exact hmono.1 x (hrefs x hx3)
        rcases List.mem_cons.mp hrec with rfl | hmem
        · intro r hr
          have hr1 : r ∈ txnRefs Lr := hmono.2 r hr
          have := importLoop_mono catMap defCat true genIds rest Lr
            (addRef refs rec) (idx + 1) r hr1
          rw [hloop] at this
          exact this
        · exact ih Lr (addRef refs rec0) (idx + 1) L1 m hloop hrefs1 rec hmem

theorem importLoop_all_skip (catMap : List (String × String))
    (defCat : Option String) (genIds : Nat → String) (recs : List CSVTransaction) :
    ∀ L refs idx,
      (∀ rec ∈ recs, ∃ r, rec.reference = some r ∧ r ≠ "" ∧ r ∈ refs) →
      importLoop catMap defCat true genIds L refs idx recs = (L, Except.ok 0) := by
  induction recs with
  | nil =>
    intro L refs idx _
    rfl
  | cons rec0 rest ih =>
    intro L refs idx hall
    obtain ⟨r0, hr0eq, hr0ne, hr0mem⟩ := hall rec0 (List.mem_cons_self _ _)
    have hskip : importSkip true refs rec0 = true := by
      unfold importSkip
      rw [hr0eq]
      simp [hr0ne, hr0mem]
    simp only [importLoop]
    rw [if_pos hskip]
    exact ih L refs (idx + 1) (fun rec hrec => hall rec (List.mem_cons_of_mem _ hrec))

theorem containsKey_eraseKey_self (cats : List BudgetCategory) (cid : String)
    (hnodup : (keysOf cats).Nodup) :
    containsKey (cats.eraseP (fun c => c.category_id == cid)) cid = false := by
  by_cases h : containsKey (cats.eraseP (fun c => c.category_id == cid)) cid = true
  · rw [containsKey_iff, mem_keysOf] at h
    obtain ⟨c, hc, hcid⟩ := h
    exact absurd hcid (mem_eraseKey cats cid c hnodup hc).2
  · rw [Bool.not_eq_true] at h
    exact h

/-! ### The claims -/

/-- C1.  For every sequence of ledger operations (`add_category`,
`update_category`, `remove_category`, `record_transaction`, transaction
deletion, batch category assignment, `recalculate_actuals`), after each
operation completes every category's `actual_amount` equals the
exact-decimal sum of `amount` over all transactions in the ledger whose
`category_id` equals that category's id. -/
theorem claim1_actuals_invariant (L : BudgetLedger) (h : Reachable L) :
    ∀ c ∈ L.categories, c.actual_amount = catTotal L.transactions c.category_id :=
  (WF_of_reachable L h).2.2.2

theorem claim1_actuals_invariant_witness :
    Reachable sampleLedger2 ∧
      ∀ c ∈ sampleLedger2.categories,
        c.actual_amount = catTotal sampleLedger2.transactions c.category_id := by
  have h0 : Reachable (BudgetLedger.mk [] []) := Reachable.empty
  have h1 : Reachable sampleLedger1 :=
    Reachable.addCat (BudgetLedger.mk [] []) "Groceries" 200 none "c1" h0
      (by decide) (by decide)
  have h2 : Reachable sampleLedger2 :=
    Reachable.record sampleLedger1 sampleLedger2 "Tesco Express" (-35)
      (some "c1") "2024-01-05" (some "t1") none none none (some "r1") "u1" h1
      (by with_unfolding_all rfl)
  exact ⟨h2, claim1_actuals_invariant sampleLedger2 h2⟩

/-- C2.  For every ledger reachable by valid operations, deserialising its
serialised form (`from_dict` of `to_dict`) reproduces the ledger exactly:
same categories (ids, names, planned amounts), same transactions, same actual
totals; and after loading, the actual totals are recomputed from the
transaction list — loading is insensitive to arbitrary rewriting of the
stored `actual_amount` values. -/
theorem claim2_roundtrip (L : BudgetLedger) (h : Reachable L) :
    ledgerFromDict (ledgerToDict L) = L ∧
      ∀ (p : LedgerPayload) (g : ℚ → ℚ),
        ledgerFromDict (mapStoredActuals g p) = ledgerFromDict p :=
  ⟨ledgerFromDict_toDict L (WF_of_reachable L h),
    fun p g => ledgerFromDict_ignores_actuals p g⟩

theorem claim2_roundtrip_witness :
    Reachable sampleLedger1 ∧
      ledgerFromDict (ledgerToDict sampleLedger1) = sampleLedger1 := by
  have h1 : Reachable sampleLedger1 :=
    Reachable.addCat (BudgetLedger.mk [] []) "Groceries" 200 none "c1"
      Reachable.empty (by decide) (by decide)
  exact ⟨h1, (claim2_roundtrip sampleLedger1 h1).1⟩

/-- C3 as stated is refuted: with a known category and an empty transaction-id
set, `set_transactions_category` returns silently instead of raising a
not-found error. -/
theorem claim3_counterexample :
    setTransactionsCategory sampleLedger2 [] "c1" = (sampleLedger2, none) := by
  with_unfolding_all rfl

/-- C3 (amended).  Batch category assignment raises a not-found error when the
target category id is unknown, and when the (non-empty) set of transaction
ids matches zero existing transactions; an empty id set is a silent no-op;
when at least one id matches, unmatched ids are ignored, every matched
transaction's `category_id` is set to the target, and all category actual
totals are recomputed; on either error path the ledger is left unchanged. -/
theorem claim3_assign_batch (L : BudgetLedger) (ids : List String) (cid : String)
    (h1 : KeysNodup L) (h2 : CatIdsNonempty L) :
    (containsKey L.categories cid = false →
      setTransactionsCategory L ids cid = (L, some "Unknown category id")) ∧
    (containsKey L.categories cid = true → ids = [] →
      setTransactionsCategory L ids cid = (L, none)) ∧
    (containsKey L.categories cid = true → ids ≠ [] →
      (∀ t ∈ L.transactions, t.transaction_id ∉ ids) →
      setTransactionsCategory L ids cid = (L, some "Unknown transaction id")) ∧
    (containsKey L.categories cid = true →
      (∃ t ∈ L.transactions, t.transaction_id ∈ ids) →
      (setTransactionsCategory L ids cid).2 = none ∧
      (setTransactionsCategory L ids cid).1.transactions =
        assignedTxns L.transactions ids cid ∧
      ActualsInvariant (setTransactionsCategory L ids cid).1) := by
  refine ⟨?_, ?_, ?_, ?_⟩
  · intro hck
    unfold setTransactionsCategory
    rw [if_pos (by rw [hck]; rfl)]
  · intro hck hids
    unfold setTransactionsCategory
    rw [if_neg (by rw [hck]; simp), if_pos (by rw [hids]; rfl)]
  · intro hck hids hnone
    unfold setTransactionsCategory
    rw [if_neg (by rw [hck]; simp),
      if_neg (by
        intro hx
        exact hids (List.isEmpty_iff.mp hx)),
      if_pos (by
        simp only [Bool.not_eq_eq_eq_not, Bool.not_true, List.any_eq_false]
        intro t ht
        simpa using hnone t ht)]
    have hsame : assignedTxns L.transactions ids cid = L.transactions := by
      unfold assignedTxns
      have hall : ∀ t ∈ L.transactions,
          (if ids.contains t.transaction_id then setTxnCategory t (some cid)
            else t) = t := by
        intro t ht
        rw [if_neg (by simpa using hnone t ht)]
      rw [List.map_congr_left hall]
      exact List.map_id _
    rw [hsame]
  · intro hck hsomeone
    obtain ⟨t0, ht0, hin0⟩ := hsomeone
    have hids : ids ≠ [] := by
      intro he
      rw [he] at hin0
      cases hin0
    have hupd : (L.transactions.any (fun t => ids.contains t.transaction_id)) = true := by
      rw [List.any_eq_true]
      exact ⟨t0, ht0, by simpa using hin0⟩
    unfold setTransactionsCategory
    rw [if_neg (by rw [hck]; simp),
      if_neg (by
        intro hx
        exact hids (List.isEmpty_iff.mp hx)),
      if_neg (by rw [hupd]; simp)]
    refine ⟨rfl, rfl, ?_⟩
    exact recalc_invariant (BudgetLedger.mk L.categories
      (assignedTxns L.transactions ids cid)) h1 h2

theorem claim3_assign_batch_witness :
    KeysNodup sampleLedger2 ∧ CatIdsNonempty sampleLedger2 ∧
      (setTransactionsCategory sampleLedger2 ["t1"] "c1").2 = none ∧
      ActualsInvariant (setTransactionsCategory sampleLedger2 ["t1"] "c1").1 := by
  have hnodup : KeysNodup sampleLedger2 := by
    show (sampleLedger2.categories.map (fun c => c.category_id)).Nodup
    decide
  have hcidne : CatIdsNonempty sampleLedger2 := by
    intro c hc
    rcases List.mem_singleton.mp hc with rfl
    decide
  have h := claim3_assign_batch sampleLedger2 ["t1"] "c1" hnodup hcidne
  have h4 := h.2.2.2 (by decide)
    (by decide : ∃ t ∈ sampleLedger2.transactions, t.transaction_id ∈ ["t1"])
  exact ⟨hnodup, hcidne, h4.1, h4.2.2⟩

/-- C6.  `remove_category` removes the category and every transaction assigned
to it; for an unknown id (on a ledger whose transactions reference only
existing categories) it is a no-op raising no error; and afterwards every
remaining category's actual total still equals the sum of its own (kept)
transactions, so no remaining total includes a removed transaction's amount. -/
theorem claim6_remove_category (L : BudgetLedger) (cid : String)
    (h1 : KeysNodup L) (h2 : ActualsInvariant L) :
    (∀ t ∈ (removeCategory L cid).transactions, t.category_id ≠ some cid) ∧
    containsKey (removeCategory L cid).categories cid = false ∧
    (containsKey L.categories cid = false →
      (∀ t ∈ L.transactions, t.category_id ≠ some cid) →
      removeCategory L cid = L) ∧
    ActualsInvariant (removeCategory L cid) := by
  refine ⟨?_, ?_, ?_, ?_⟩
  · intro t ht
    have := (List.mem_filter.mp ht).2
    simpa using this
  · exact containsKey_eraseKey_self L.categories cid h1
  · intro hck hnone
    have hcats : L.categories.eraseP (fun c => c.category_id == cid) =
        L.categories := by
      apply List.eraseP_of_forall_not
      intro c hc
      intro he
      have hcontr : containsKey L.categories cid = true := by
        rw [containsKey_iff, mem_keysOf]
        exact ⟨c, hc, by simpa using he⟩
      rw [hck] at hcontr
      cases hcontr
    have htxns : L.transactions.filter (fun t => !(t.category_id == some cid)) =
        L.transactions := by
      apply List.filter_eq_self.mpr
      intro t ht
      simpa using hnone t ht
    show BudgetLedger.mk _ _ = L
    rw [hcats, htxns]
  · intro c hc
    have hc2 := mem_eraseKey _ _ _ h1 hc
    show c.actual_amount =
      catTotal (L.transactions.filter (fun t => !(t.category_id == some cid)))
        c.category_id
    rw [catTotal_filter_ne _ _ _ hc2.2]
    exact h2 c hc2.1

theorem claim6_remove_category_witness :
    KeysNodup sampleLedger2 ∧ ActualsInvariant sampleLedger2 ∧
      (∀ t ∈ (removeCategory sampleLedger2 "c1").transactions,
        t.category_id ≠ some "c1") ∧
      containsKey (removeCategory sampleLedger2 "c1").categories "c1" = false ∧
      ActualsInvariant (removeCategory sampleLedger2 "c1") := by
  have hnodup : KeysNodup sampleLedger2 := by
    show (sampleLedger2.categories.map (fun c => c.category_id)).Nodup
    decide
  have hinv : ActualsInvariant sampleLedger2 := by
    intro c hc
    rcases List.mem_singleton.mp hc with rfl
    with_unfolding_all rfl
  have h := claim6_remove_category sampleLedger2 "c1" hnodup hinv
  exact ⟨hnodup, hinv, h.1, h.2.1, h.2.2.2⟩

/-- C7 as stated is refuted: the transaction's normalised key equals the key
of a supplied labelled example (the oldest of thirteen), yet the classifier
answers from the keyword heuristic ("Dining", confidence 0.6) instead of that
example's category with confidence 0.99, because only the most recent twelve
examples are memoised. -/
theorem claim7_counterexample :
    (∃ e ∈ cex7Examples, normaliseTransaction (descTxn "starbucks") =
        normaliseTransaction e.1 ∧ e.2 = "Coffee") ∧
    (suggestCategory (ClassifierState.mk 12 []) (descTxn "starbucks") []
        cex7Examples).1 = some (ClassificationResult.mk "Dining" (6/10)) ∧
    (suggestCategory (ClassifierState.mk 12 []) (descTxn "starbucks") []
        cex7Examples).1 ≠ some (ClassificationResult.mk "Coffee" (99/100)) := by
  refine ⟨?_, ?_, ?_⟩
  · with_unfolding_all decide
  · with_unfolding_all rfl
  · with_unfolding_all decide

/-- C7 (amended).  For every transaction whose (non-empty) normalised key
equals the key of one of the most recent `max_feedback_examples` supplied
labelled examples (with a non-empty label), `suggest_category` returns the
most recent such example's category with confidence 0.99, regardless of any
keyword content in the transaction's text. -/
theorem claim7_memoised_match (st : ClassifierState) (t : Transaction)
    (existing : List String) (examples : List (Transaction × String))
    (e : Transaction × String)
    (hkey : normaliseTransaction t ≠ "")
    (hfind : (pyTakeLast st.max_feedback_examples examples).reverse.find?
      (fun ex => normaliseTransaction ex.1 == normaliseTransaction t &&
        !(ex.2 == "")) = some e) :
    (suggestCategory st t existing examples).1 =
      some (ClassificationResult.mk e.2 (99/100)) := by
  have hexnil : examples.isEmpty = false := by
    cases hx : examples with
    | nil =>
      rw [hx] at hfind
      rw [show pyTakeLast st.max_feedback_examples [] = [] from by
        unfold pyTakeLast
        split <;> simp] at hfind
      cases hfind
    | cons a l => rfl
  have hlookup : memLookup
      (updateMemory st.max_feedback_examples st.memory examples)
      (normaliseTransaction t) = some (ClassificationResult.mk e.2 (99/100)) := by
    rw [memLookup_updateMemory _ _ _ _ hkey, hfind]
  have hcond : ¬ ((existing.isEmpty && examples.isEmpty) = true) := by
    rw [hexnil]
    simp
  have hbeq : (normaliseTransaction t == "") = false := by
    simpa using hkey
  have hcond2 : ¬ ((normaliseTransaction t == "") = true) := by
    rw [hbeq]
    simp
  unfold suggestCategory
  rw [if_neg hcond, if_neg hcond2, hlookup]

theorem claim7_memoised_match_witness :
    normaliseTransaction (descTxn "alpha3") ≠ "" ∧
      (suggestCategory (ClassifierState.mk 12 []) (descTxn "alpha3") []
        cex7Examples).1 = some (ClassificationResult.mk "Other" (99/100)) := by
  refine ⟨by decide, ?_⟩
  exact claim7_memoised_match (ClassifierState.mk 12 []) (descTxn "alpha3") []
    cex7Examples (descTxn "alpha3", "Other") (by decide) (by decide)

/-- C8 as stated is refuted: thirteen `suggest_category` calls, each seeding
one fresh labelled example, leave the memory with thirteen entries although
`max_feedback_examples` is 12 — the memory accumulates across calls with no
eviction. -/
theorem claim8_counterexample :
    ((List.range 13).foldl cl8Step (ClassifierState.mk 12 [])).memory.length = 13 ∧
    ¬ ((List.range 13).foldl cl8Step (ClassifierState.mk 12 [])).memory.length ≤
        ((List.range 13).foldl cl8Step (ClassifierState.mk 12 [])).max_feedback_examples := by
  refine ⟨?_, ?_⟩
  · with_unfolding_all rfl
  · with_unfolding_all decide

/-- C8 (amended).  The per-call seeding is bounded: one `suggest_category`
call grows the memory by at most `max_feedback_examples` (when positive)
entries from the supplied examples plus at most one entry for the classified
transaction; the memory itself is not capped across calls. -/
theorem claim8_per_call_bound (st : ClassifierState) (t : Transaction)
    (existing : List String) (examples : List (Transaction × String))
    (hcap : 0 < st.max_feedback_examples) :
    ((suggestCategory st t existing examples).2).memory.length ≤
      st.memory.length + st.max_feedback_examples + 1 := by
  have hupd := length_updateMemory st.max_feedback_examples st.memory examples hcap
  have hins1 := length_memInsert
    (updateMemory st.max_feedback_examples st.memory examples)
    (normaliseTransaction t)
  unfold suggestCategory
  by_cases hempty : (existing.isEmpty && examples.isEmpty) = true
  · rw [if_pos hempty]
    show st.memory.length ≤ _
    omega
  · rw [if_neg hempty]
    cases hl : (if normaliseTransaction t == "" then none
        else memLookup (updateMemory st.max_feedback_examples st.memory examples)
          (normaliseTransaction t)) with
    | some r =>
      show (updateMemory st.max_feedback_examples st.memory examples).length ≤ _
      omega
    | none =>
      show (heuristicClassification st.max_feedback_examples
        (updateMemory st.max_feedback_examples st.memory examples) t existing
        examples (normaliseTransaction t)).2.length ≤ _
      unfold heuristicClassification
      cases hm1 : matchFromExamples st.max_feedback_examples t examples with
      | some r =>
        show (if normaliseTransaction t == "" then
            updateMemory st.max_feedback_examples st.memory examples
          else memInsert (updateMemory st.max_feedback_examples st.memory examples)
            (normaliseTransaction t) r).length ≤ _
        by_cases hk : (normaliseTransaction t == "") = true
        · rw [if_pos hk]
          omega
        · rw [if_neg hk]
          have hr := hins1 r
          omega
      | none =>
        cases hm2 : matchFromKeywords t existing with
        | some r =>
          show (if normaliseTransaction t == "" then
              updateMemory st.max_feedback_examples st.memory examples
            else memInsert (updateMemory st.max_feedback_examples st.memory examples)
              (normaliseTransaction t) r).length ≤ _
          by_cases hk : (normaliseTransaction t == "") = true
          · rw [if_pos hk]
            omega
          · rw [if_neg hk]
            have hr := hins1 r
            omega
        | none =>
          show (updateMemory st.max_feedback_examples st.memory examples).length ≤ _
          omega

theorem claim8_per_call_bound_witness :
    0 < (ClassifierState.mk 12 []).max_feedback_examples ∧
      ((suggestCategory (ClassifierState.mk 12 []) (descTxn "w8") []
        [(descTxn "w8", "X")]).2).memory.length ≤
        (ClassifierState.mk 12 []).memory.length +
          (ClassifierState.mk 12 []).max_feedback_examples + 1 :=
  ⟨by decide, claim8_per_call_bound (ClassifierState.mk 12 []) (descTxn "w8") []
    [(descTxn "w8", "X")] (by decide)⟩

/-- C9.  CSV amount parsing follows the European decimal convention: the
string `"1.234,56"` parses to exactly 1234.56 (not 1.23456), non-breaking
spaces are removed before parsing, and the empty string parses to zero. -/
theorem claim9_decimal_convention :
    parseDecimalPy "1.234,56" = some ((123456 : ℚ)/100) ∧
    parseDecimalPy "1.234,56" ≠ some ((123456 : ℚ)/100000) ∧
    parseDecimalPy " 1\u00A0.234,56\u00A0" = some ((123456 : ℚ)/100) ∧
    parseDecimalPy "" = some 0 := by
  refine ⟨?_, ?_, ?_, ?_⟩
  · with_unfolding_all rfl
  · with_unfolding_all decide
  · with_unfolding_all rfl
  · with_unfolding_all rfl

/-- C10.  With no existing categories and no labelled examples,
`suggest_category` returns no suggestion and leaves the classifier state
untouched — the keyword heuristic is never consulted, whatever the
transaction's text contains. -/
theorem claim10_empty_context (st : ClassifierState) (t : Transaction) :
    suggestCategory st t [] [] = (none, st) := rfl

/-- C4.  CSV import is fail-clean: an undecodable file or an admitted row
whose date cannot be resolved makes the reader raise, the raised error
propagates out of `import_transactions_from_csv` before any transaction is
committed, and the prior ledger state is untouched; a row lacking an account
identifier is silently skipped instead. -/
theorem claim4_import_fail_clean (L : BudgetLedger)
    (catMap : List (String × String)) (defCat : Option String)
    (skipExisting : Bool) (genIds : Nat → String) :
    (∀ input e, readTransactionsFromCsv input = Except.error e →
      importTransactionsFromCsv L input catMap defCat skipExisting genIds =
        (L, Except.error e)) ∧
    (importTransactionsFromCsv L none catMap defCat skipExisting genIds =
      (L, Except.error "Unable to decode CSV file")) ∧
    (∀ (r : CsvRow) (rest : List CsvRow), pyStrip r.ibanBban = "" →
      readTransactionsFromRows (r :: rest) = readTransactionsFromRows rest) ∧
    (∀ (rows : List CsvRow) (r : CsvRow), r ∈ rows → pyStrip r.ibanBban ≠ "" →
      pickDate r = none →
      ∃ e, readTransactionsFromRows rows = Except.error e) := by
  refine ⟨?_, ?_, ?_, ?_⟩
  · intro input e h
    unfold importTransactionsFromCsv
    rw [h]
  · rfl
  · intro r rest hacc
    simp only [readTransactionsFromRows]
    rw [if_pos (by rw [hacc]; rfl)]
  · intro rows
    induction rows with
    | nil =>
      intro r hr
      cases hr
    | cons r0 rest ih =>
      intro r hr hacc hdate
      simp only [readTransactionsFromRows]
      by_cases hacc0 : (pyStrip r0.ibanBban == "") = true
      · rw [if_pos hacc0]
        rcases List.mem_cons.mp hr with rfl | hmem
        · exact absurd (by simpa using hacc0) hacc
        · exact ih r hmem hacc hdate
      · rw [if_neg hacc0]
        cases hamt : parseDecimalPy r0.bedrag with
        | none => exact ⟨"InvalidOperation", rfl⟩
        | some amount =>
          cases hdate0 : pickDate r0 with
          | none => exact ⟨"Unable to determine transaction date", rfl⟩
          | some occ =>
            have hmem : r ∈ rest := by
              rcases List.mem_cons.mp hr with rfl | hmem
              · rw [hdate] at hdate0
                cases hdate0
              · exact hmem
            obtain ⟨e, he⟩ := ih r hmem hacc hdate
            rw [he]
            exact ⟨e, rfl⟩

theorem claim4_import_fail_clean_witness :
    readTransactionsFromCsv (some [noDateRow]) =
        Except.error "Unable to determine transaction date" ∧
      importTransactionsFromCsv sampleLedger2 (some [noDateRow]) [] none true
        (fun _ => "u") =
        (sampleLedger2, Except.error "Unable to determine transaction date") := by
  have hread : readTransactionsFromCsv (some [noDateRow]) =
      Except.error "Unable to determine transaction date" := by
    with_unfolding_all rfl
  exact ⟨hread, (claim4_import_fail_clean sampleLedger2 [] none true
    (fun _ => "u")).1 (some [noDateRow]) _ hread⟩

/-- C5.  Import is idempotent on references: when every parsed record carries
a reference and a first import over the same rows succeeded, a second import
with the default `skip_existing` behaviour adds nothing — it returns the
unchanged ledger and an import count of zero. -/
theorem claim5_import_idempotent (L L1 : BudgetLedger) (rows : List CsvRow)
    (recs : List CSVTransaction) (catMap : List (String × String))
    (defCat : Option String) (genIds genIds2 : Nat → String) (n : Nat)
    (hread : readTransactionsFromCsv (some rows) = Except.ok recs)
    (hrefs : ∀ rec ∈ recs, rec.reference ≠ none)
    (h1 : importTransactionsFromCsv L (some rows) catMap defCat true genIds =
      (L1, Except.ok n)) :
    importTransactionsFromCsv L1 (some rows) catMap defCat true genIds2 =
      (L1, Except.ok 0) := by
  have hreadRows : readTransactionsFromRows rows = Except.ok recs := hread
  unfold importTransactionsFromCsv at h1 ⊢
  rw [show readTransactionsFromCsv (some rows) = Except.ok recs from hread] at h1 ⊢
  have h1b : (if recs.isEmpty = true then (L, Except.ok 0)
      else importLoop catMap defCat true genIds L
        (if true = true then txnRefs L else []) 0 recs) = (L1, Except.ok n) := h1
  show (if recs.isEmpty = true then (L1, Except.ok 0)
      else importLoop catMap defCat true genIds2 L1
        (if true = true then txnRefs L1 else []) 0 recs) = (L1, Except.ok 0)
  clear h1
  by_cases hrecs : recs.isEmpty = true
  · rw [if_pos hrecs] at h1b ⊢
  · rw [if_neg hrecs] at h1b ⊢
    have hall : ∀ rec ∈ recs, ∃ r, rec.reference = some r ∧ r ≠ "" ∧
        r ∈ (if true = true then txnRefs L1 else []) := by
      intro rec hrec
      cases hx : rec.reference with
      | none => exact absurd hx (hrefs rec hrec)
      | some r =>
        refine ⟨r, rfl, ?_, ?_⟩
        · intro he
          subst he
          exact readRows_refs rows recs hreadRows rec hrec hx
        · rw [if_pos rfl]
          exact importLoop_refs catMap defCat genIds recs L
            (if true = true then txnRefs L else []) 0 L1 n h1b
            (by
              intro x hx2
              rw [if_pos rfl] at hx2
              exact hx2) rec hrec r hx
    exact importLoop_all_skip catMap defCat genIds2 recs L1
      (if true = true then txnRefs L1 else []) 0 hall

theorem claim5_import_idempotent_witness :
    ∃ recs, readTransactionsFromCsv (some [goodRow, noAccountRow]) =
        Except.ok recs ∧
      (∀ rec ∈ recs, rec.reference ≠ none) ∧
      importTransactionsFromCsv importedSample (some [goodRow, noAccountRow])
        [] none true (fun _ => "u2") = (importedSample, Except.ok 0) := by
  have hread : readTransactionsFromCsv (some [goodRow, noAccountRow]) =
      Except.ok [CSVTransaction.mk "Shop | r1" (25/2) "2024-01-05"
        "NL01BANK0123456789" none (some "Shop") (some "r1")] := by
    with_unfolding_all rfl
  have h1 : importTransactionsFromCsv (BudgetLedger.mk [] [])
      (some [goodRow, noAccountRow]) [] none true (fun _ => "u") =
      (importedSample, Except.ok 1) := by
    with_unfolding_all rfl
  refine ⟨_, hread, ?_, ?_⟩
  · intro rec hrec
    rcases List.mem_singleton.mp hrec with rfl
    decide
  · exact claim5_import_idempotent (BudgetLedger.mk [] []) importedSample
      [goodRow, noAccountRow] _ [] none (fun _ => "u") (fun _ => "u2") 1 hread
      (by
        intro rec hrec
        rcases List.mem_singleton.mp hrec with rfl
        decide) h1

end BudgetApp
